import Mathlib

/-
Verification of the Signet ledger core: a shallow embedding of the
block/chain data model, hashing, signing and the node orchestrator
(core/block.go, core/chain.go, core/pending.go, core/hash.go, the node
package and the HTTP register handler), with theorems checking the
specification's claims about them.

Modelling conventions:
  * Go strings are Lean `String`s; `[]byte` values are `List Nat` byte
    lists (UTF-8 for strings).
  * SHA-256 is implemented in full (FIPS 180-4), so hash values are the
    real ones; the repository's own test vectors for `CalcSHA256` are
    reproduced below.
  * `time.Time` is modelled as a UTC instant: seconds since the Unix
    epoch plus a nanosecond part (`GoTime`).  RFC-3339 rendering uses the
    standard civil-from-days calendar algorithm; like Go's
    `Format(time.RFC3339)` on a UTC value it depends only on the seconds.
  * Ed25519 and its base64/hex codecs are external library primitives;
    they are modelled symbolically: signing is an injective tagged
    encoding of (private key, message), and `Verify pub msg sig` accepts
    exactly the signature that the matching private key produces over
    `msg`, which is the §4.1 contract of the spec.
  * `json.RawMessage` values in this system are always the canonical
    serialization of a `TransactionData`, of an `AddNodeData`, or nil
    (every write site goes through `json.Marshal` of one of the two
    structs), so they are modelled by the sum `RawData`; rendering a
    `RawData` produces exactly the canonical JSON bytes Go would.
  * File and network I/O cannot fail in the model: the block log, the
    pending snapshot and the `nodes/` directory are fields of the node
    state, and broadcast/forward calls are recorded as a Bool.
-/

set_option maxRecDepth 100000

deriving instance DecidableEq for Except

namespace Signet

/-! ## SHA-256 (FIPS 180-4) over byte lists -/

/-- Truncation to a 32-bit word. -/
def w32 (n : Nat) : Nat := n % 4294967296

/-- Right rotation of a 32-bit word. -/
def rotr32 (n x : Nat) : Nat := w32 ((x >>> n) ||| (x <<< (32 - n)))

def bigSigma0 (x : Nat) : Nat := rotr32 2 x ^^^ rotr32 13 x ^^^ rotr32 22 x

def bigSigma1 (x : Nat) : Nat := rotr32 6 x ^^^ rotr32 11 x ^^^ rotr32 25 x

def smallSigma0 (x : Nat) : Nat := rotr32 7 x ^^^ rotr32 18 x ^^^ (x >>> 3)

def smallSigma1 (x : Nat) : Nat := rotr32 17 x ^^^ rotr32 19 x ^^^ (x >>> 10)

/-- The 64 SHA-256 round constants. -/
def sha256K : List Nat :=
  [1116352408, 1899447441, 3049323471, 3921009573, 961987163, 1508970993, 2453635748, 2870763221,
   3624381080, 310598401, 607225278, 1426881987, 1925078388, 2162078206, 2614888103, 3248222580,
   3835390401, 4022224774, 264347078, 604807628, 770255983, 1249150122, 1555081692, 1996064986,
   2554220882, 2821834349, 2952996808, 3210313671, 3336571891, 3584528711, 113926993, 338241895,
   666307205, 773529912, 1294757372, 1396182291, 1695183700, 1986661051, 2177026350, 2456956037,
   2730485921, 2820302411, 3259730800, 3345764771, 3516065817, 3600352804, 4094571909, 275423344,
   430227734, 506948616, 659060556, 883997877, 958139571, 1322822218, 1537002063, 1747873779,
   1955562222, 2024104815, 2227730452, 2361852424, 2428436474, 2756734187, 3204031479, 3329325298]

/-- Extend the message schedule, kept in reverse (most recent word first),
by `fuel` more words. -/
def extendSchedule : Nat → List Nat → List Nat
  | 0, ws => ws
  | fuel + 1, ws =>
    let wNew := w32 (smallSigma1 (ws.getD 1 0) + ws.getD 6 0 + smallSigma0 (ws.getD 14 0) + ws.getD 15 0)
    extendSchedule fuel (wNew :: ws)

/-- The first 16 words (big-endian) of a 64-byte block. -/
def blockWords : List Nat → List Nat
  | b0 :: b1 :: b2 :: b3 :: rest => (((b0 * 256 + b1) * 256 + b2) * 256 + b3) :: blockWords rest
  | _ => []

/-- The eight 32-bit working variables of SHA-256. -/
structure Hash8 where
  a : Nat
  b : Nat
  c : Nat
  d : Nat
  e : Nat
  f : Nat
  g : Nat
  h : Nat
  deriving DecidableEq

def sha256Init : Hash8 :=
  ⟨1779033703, 3144134277, 1013904242, 2773480762, 1359893119, 2600822924, 528734635, 1541459225⟩

/-- One round of the SHA-256 compression function (the Ch term uses
`2^32 - 1 - e` for the 32-bit complement of `e`). -/
def sha256Round (s : Hash8) (wk : Nat × Nat) : Hash8 :=
  let t1 := w32 (s.h + bigSigma1 s.e + ((s.e &&& s.f) ^^^ ((2 ^ 32 - 1 - s.e) &&& s.g)) + wk.2 + wk.1)
  let t2 := w32 (bigSigma0 s.a + ((s.a &&& s.b) ^^^ (s.a &&& s.c) ^^^ (s.b &&& s.c)))
  ⟨w32 (t1 + t2), s.a, s.b, s.c, w32 (s.d + t1), s.e, s.f, s.g⟩

/-- Compression of one 64-byte block. -/
def sha256Compress (st : Hash8) (block : List Nat) : Hash8 :=
  let w16 := blockWords block
  let ws := (extendSchedule 48 w16.reverse).reverse
  let r := List.foldl sha256Round st (ws.zip sha256K)
  ⟨w32 (st.a + r.a), w32 (st.b + r.b), w32 (st.c + r.c), w32 (st.d + r.d),
   w32 (st.e + r.e), w32 (st.f + r.f), w32 (st.g + r.g), w32 (st.h + r.h)⟩

/-- Big-endian 8-byte encoding of a length in bits. -/
def be64 (n : Nat) : List Nat :=
  [(n >>> 56) % 256, (n >>> 48) % 256, (n >>> 40) % 256, (n >>> 32) % 256,
   (n >>> 24) % 256, (n >>> 16) % 256, (n >>> 8) % 256, n % 256]

/-- Merkle–Damgård padding: 0x80, zeros to 56 mod 64, 8-byte bit length. -/
def sha256Pad (msg : List Nat) : List Nat :=
  let zeros := (64 - ((msg.length + 9) % 64)) % 64
  msg ++ 0x80 :: List.replicate zeros 0 ++ be64 (8 * msg.length)

/-- Split into 64-byte chunks; fuel-based so that the kernel can reduce it
(the fuel is an upper bound on the number of chunks). -/
def chunk64 : Nat → List Nat → List (List Nat)
  | 0, _ => []
  | _, [] => []
  | fuel + 1, l => l.take 64 :: chunk64 fuel (l.drop 64)

/-- Big-endian 4-byte encoding of a 32-bit word. -/
def word4 (n : Nat) : List Nat := [(n >>> 24) % 256, (n >>> 16) % 256, (n >>> 8) % 256, n % 256]

/-- SHA-256 digest (32 bytes) of a byte list. -/
def sha256Bytes (msg : List Nat) : List Nat :=
  let padded := sha256Pad msg
  let st := List.foldl sha256Compress sha256Init (chunk64 padded.length padded)
  word4 st.a ++ word4 st.b ++ word4 st.c ++ word4 st.d ++ word4 st.e ++ word4 st.f ++ word4 st.g ++ word4 st.h

/-- Lowercase hexadecimal digit. -/
def hexDigit (n : Nat) : Char := if n < 10 then Char.ofNat (48 + n) else Char.ofNat (87 + n)

/-- Lowercase hexadecimal rendering of a byte list (Go `hex.EncodeToString`). -/
def hexOfBytes (l : List Nat) : String :=
  ⟨l.flatMap (fun b => [hexDigit (b / 16), hexDigit (b % 16)])⟩

/-- UTF-8 bytes of one character (Go `[]byte(string)` encoding). -/
def charBytes (c : Char) : List Nat :=
  let n := c.toNat
  if n < 0x80 then [n]
  else if n < 0x800 then [0xC0 ||| (n >>> 6), 0x80 ||| (n &&& 0x3F)]
  else if n < 0x10000 then [0xE0 ||| (n >>> 12), 0x80 ||| ((n >>> 6) &&& 0x3F), 0x80 ||| (n &&& 0x3F)]
  else [0xF0 ||| (n >>> 18), 0x80 ||| ((n >>> 12) &&& 0x3F), 0x80 ||| ((n >>> 6) &&& 0x3F), 0x80 ||| (n &&& 0x3F)]

/-- UTF-8 bytes of a string. -/
def strBytes (s : String) : List Nat := s.data.flatMap charBytes

/-- Go `core.CalcSHA256` (core/hash.go): SHA-256 of a string, hex encoded. -/
def CalcSHA256 (data : String) : String := hexOfBytes (sha256Bytes (strBytes data))

/-! ## Decimal rendering (Go `%d` / JSON integer encoding) -/

/-- Decimal rendering of a natural number. -/
def natDec (n : Nat) : String := ⟨Nat.toDigits 10 n⟩

/-- Decimal rendering of an integer (Go `fmt.Sprintf("%d", …)` on an
`int`/`int64`, and Go JSON integer encoding). -/
def intDec (i : Int) : String := if i < 0 then "-" ++ natDec i.natAbs else natDec i.natAbs

/-! ## Time (Go `time.Time` restricted to UTC instants) -/

/-- A UTC instant: seconds since the Unix epoch (may be negative) and a
nanosecond part in [0, 10^9). Go's zero `time.Time` is year 1. -/
structure GoTime where
  sec : Int
  nsec : Nat
  deriving DecidableEq

/-- Go `time.Time{}.UTC()` — the zero instant, 0001-01-01T00:00:00Z. -/
def goTimeZero : GoTime := ⟨-62135596800, 0⟩

/-- Go `t.Unix()`: whole seconds since the epoch (floor). -/
def GoTime.unix (t : GoTime) : Int := t.sec

/-- Go `t.UnixNano()`: nanoseconds since the epoch. -/
def GoTime.unixNano (t : GoTime) : Int := t.sec * 1000000000 + (t.nsec : Int)

/-- Go `time.Unix(sec, 0).UTC()`. -/
def timeUnix (sec : Int) : GoTime := ⟨sec, 0⟩

/-- Zero-padded two-digit decimal. -/
def pad2 (n : Nat) : String := if n < 10 then "0" ++ natDec n else natDec n

/-- Zero-padded four-digit decimal (Go pads the year of RFC-3339 to four). -/
def pad4 (n : Nat) : String :=
  if n < 10 then "000" ++ natDec n
  else if n < 100 then "00" ++ natDec n
  else if n < 1000 then "0" ++ natDec n
  else natDec n

/-- Proleptic-Gregorian date (year, month, day) of a day count since the
Unix epoch — the standard civil-from-days algorithm. Divisors are
positive, so Euclidean division is floor division. -/
def civilFromDays (z : Int) : Int × Nat × Nat :=
  let zs := z + 719468
  let era := zs.ediv 146097
  let doe := (zs.emod 146097).toNat
  let yoe := (doe - doe / 1460 + doe / 36524 - doe / 146096) / 365
  let doy := doe - (365 * yoe + yoe / 4 - yoe / 100)
  let mp := (5 * doy + 2) / 153
  let d := doy - (153 * mp + 2) / 5 + 1
  let m := if mp < 10 then mp + 3 else mp - 9
  let y := (yoe : Int) + era * 400 + (if m ≤ 2 then 1 else 0)
  (y, m, d)

/-- Go `t.Format(time.RFC3339)` for a UTC instant: the layout has no
fractional second, so the rendering depends only on `t.sec`. Years of
this development lie in [1, 9999], where `toNat` of the year is exact. -/
def rfc3339OfTime (t : GoTime) : String :=
  let days := t.sec.ediv 86400
  let sod := (t.sec.emod 86400).toNat
  let ymd := civilFromDays days
  pad4 ymd.1.toNat ++ "-" ++ pad2 ymd.2.1 ++ "-" ++ pad2 ymd.2.2 ++ "T" ++
    pad2 (sod / 3600) ++ ":" ++ pad2 (sod / 60 % 60) ++ ":" ++ pad2 (sod % 60) ++ "Z"

/-! ## Canonical JSON rendering (Go `encoding/json`, default HTML escaping) -/

/-- Go JSON string escaping for one character: quotes, backslash, the
newline/carriage-return/tab escapes, `\u00xx` for other control
characters, and the HTML-escaped `<`, `>`, `&`, U+2028, U+2029. -/
def jsonEscapeChar (c : Char) : List Char :=
  if c = '"' then ['\\', '"']
  else if c = '\\' then ['\\', '\\']
  else if c = '\n' then ['\\', 'n']
  else if c = '\r' then ['\\', 'r']
  else if c = '\t' then ['\\', 't']
  else if c.toNat < 0x20 then
    ['\\', 'u', '0', '0', hexDigit (c.toNat / 16), hexDigit (c.toNat % 16)]
  else if c = '<' then ['\\', 'u', '0', '0', '3', 'c']
  else if c = '>' then ['\\', 'u', '0', '0', '3', 'e']
  else if c = '&' then ['\\', 'u', '0', '0', '2', '6']
  else if c.toNat = 0x2028 then ['\\', 'u', '2', '0', '2', '8']
  else if c.toNat = 0x2029 then ['\\', 'u', '2', '0', '2', '9']
  else [c]

/-- Go JSON string literal: quoted and escaped. -/
def jsonQuote (s : String) : String := "\"" ++ ⟨s.data.flatMap jsonEscapeChar⟩ ++ "\""

/-- Go `core.TransactionData` (field tags from, to, amount, title). -/
structure TransactionData where
  From : String
  To : String
  Amount : Int
  Title : String
  deriving DecidableEq

/-- Go `json.Marshal` of a `TransactionData`: fields in declaration order. -/
def jsonTransactionData (t : TransactionData) : String :=
  "\x7b\"from\":" ++ jsonQuote t.From ++ ",\"to\":" ++ jsonQuote t.To ++
    ",\"amount\":" ++ intDec t.Amount ++ ",\"title\":" ++ jsonQuote t.Title ++ "\x7d"

/-- Go `core.AddNodeData` (field tags public_key, node_name, nick_name, address). -/
structure AddNodeData where
  PublicKey : String
  NodeName : String
  NickName : String
  Address : String
  deriving DecidableEq

/-- Go `json.Marshal` of an `AddNodeData`. -/
def jsonAddNodeData (a : AddNodeData) : String :=
  "\x7b\"public_key\":" ++ jsonQuote a.PublicKey ++ ",\"node_name\":" ++ jsonQuote a.NodeName ++
    ",\"nick_name\":" ++ jsonQuote a.NickName ++ ",\"address\":" ++ jsonQuote a.Address ++ "\x7d"

/-- A `json.RawMessage` of this system: always the canonical serialization
of one of the two payload structs, or nil (Go's zero RawMessage). Every
site of the repository that sets a `Data` field goes through
`json.Marshal` of one of the structs, so this sum is exhaustive. -/
inductive RawData where
  | tx (t : TransactionData)
  | addNode (a : AddNodeData)
  | null
  deriving DecidableEq

/-- The bytes a `RawData` stands for (Go `string(payload.Data)`): nil is
the empty byte slice. -/
def rawString : RawData → String
  | .tx t => jsonTransactionData t
  | .addNode a => jsonAddNodeData a
  | .null => ""

/-- Go `json.Marshal` of a RawMessage field: the raw bytes, or the literal
null for a nil RawMessage. -/
def jsonRawData : RawData → String
  | .tx t => jsonTransactionData t
  | .addNode a => jsonAddNodeData a
  | .null => "null"

/-! ## Block model (core/block.go) -/

/-- Go `core.BlockPayload` (the field `Type` is spelled `Type'`, `Type`
being reserved in Lean). -/
structure BlockPayload where
  Type' : String
  Data : RawData
  FromSignature : String
  ToSignature : String
  deriving DecidableEq

/-- Go `json.Marshal` of a `BlockPayload` (keys type, data, from_signature,
to_signature). -/
def jsonBlockPayload (p : BlockPayload) : String :=
  "\x7b\"type\":" ++ jsonQuote p.Type' ++ ",\"data\":" ++ jsonRawData p.Data ++
    ",\"from_signature\":" ++ jsonQuote p.FromSignature ++
    ",\"to_signature\":" ++ jsonQuote p.ToSignature ++ "\x7d"

/-- Go `core.BlockHeader`. -/
structure BlockHeader where
  Index : Int
  CreatedAt : GoTime
  PrevHash : String
  Hash : String
  deriving DecidableEq

/-- Go `core.Block`. -/
structure Block where
  Header : BlockHeader
  Payload : BlockPayload
  deriving DecidableEq

/-- Go `core.CalcBlockHash`: SHA-256 over
decimal(Index) ++ RFC3339(CreatedAt) ++ PrevHash ++ JSON(Payload),
hex-lowercase (the `json.Marshal` error branch cannot fire: marshalling
these payloads never fails). -/
def CalcBlockHash (b : Block) : String :=
  let payloadJSON := jsonBlockPayload b.Payload
  let data := intDec b.Header.Index ++ rfc3339OfTime b.Header.CreatedAt ++ b.Header.PrevHash ++ payloadJSON
  hexOfBytes (sha256Bytes (strBytes data))

/-- Go `core.NewBlock`: stamps the creation instant (`time.Now().UTC()`,
passed explicitly here) and fills the hash over the other fields. -/
def NewBlock (index : Int) (prevHash : String) (payload : BlockPayload) (now : GoTime) : Block :=
  let block : Block := ⟨⟨index, now, prevHash, ""⟩, payload⟩
  ⟨⟨index, now, prevHash, CalcBlockHash block⟩, payload⟩

/-- Go `core.NewGenesisBlock`: deterministic genesis from an add_node
payload, zero instant, prev_hash the literal 0. -/
def NewGenesisBlock (addNode : AddNodeData) : Block :=
  let payload : BlockPayload := ⟨"add_node", .addNode addNode, "", ""⟩
  let block : Block := ⟨⟨0, goTimeZero, "0", ""⟩, payload⟩
  ⟨⟨0, goTimeZero, "0", CalcBlockHash block⟩, payload⟩

/-- Modelled from the spec: the zero-argument `core.NewGenesisBlock()`
called by `core.NewChain()` and `cmd.RunInit` is not among the staged
sources; per §3/§9 of the spec it uses the network-wide constant
add_node payload `node_name:"genesis"`, `nick_name:"Signet Network"`
(the public_key and address constants are not given by the spec; they are
fixed strings here, and no claim depends on their value). -/
def genesisAddNodeData : AddNodeData := ⟨"", "genesis", "Signet Network", ""⟩

/-- Modelled from the spec: the zero-argument `core.NewGenesisBlock()` —
`NewGenesisBlock` applied to the fixed network constants. -/
def NewGenesisBlockFixed : Block := NewGenesisBlock genesisAddNodeData

/-- Go `core.ValidateBlock`: recomputed hash must match the stored one,
and the payload type must be one of transaction / add_node. -/
def ValidateBlock (b : Block) : Except String Unit :=
  if CalcBlockHash b ≠ b.Header.Hash then
    .error ("invalid block hash: expected " ++ CalcBlockHash b ++ ", got " ++ b.Header.Hash)
  else if b.Payload.Type' = "transaction" ∨ b.Payload.Type' = "add_node" then .ok ()
  else .error ("invalid payload type: " ++ b.Payload.Type')

/-- Go `(*Block).GetTransactionData`. -/
def Block.GetTransactionData (b : Block) : Except String TransactionData :=
  if b.Payload.Type' ≠ "transaction" then
    .error ("payload type is not transaction: " ++ b.Payload.Type')
  else
    match b.Payload.Data with
    | .tx t => .ok t
    | _ => .error "failed to unmarshal transaction data"

/-- Go `(*Block).GetAddNodeData`. -/
def Block.GetAddNodeData (b : Block) : Except String AddNodeData :=
  if b.Payload.Type' ≠ "add_node" then
    .error ("payload type is not add_node: " ++ b.Payload.Type')
  else
    match b.Payload.Data with
    | .addNode a => .ok a
    | _ => .error "failed to unmarshal add_node data"

/-- Go `core.SetTransactionData`: `json.Marshal` of the struct (cannot
fail), as a RawMessage. -/
def SetTransactionData (tx : TransactionData) : RawData := .tx tx

/-- Go `core.SetAddNodeData`. -/
def SetAddNodeData (addNode : AddNodeData) : RawData := .addNode addNode

/-- Go `core.CreateBlockWithTransaction` (the marshal error branch cannot
fire). -/
def CreateBlockWithTransaction (index : Int) (prevHash : String) (tx : TransactionData)
    (fromSig toSig : String) (now : GoTime) : Block :=
  NewBlock index prevHash ⟨"transaction", SetTransactionData tx, fromSig, toSig⟩ now

/-- Go `core.CreateBlockWithAddNode`. -/
def CreateBlockWithAddNode (index : Int) (prevHash : String) (addNode : AddNodeData)
    (now : GoTime) : Block :=
  NewBlock index prevHash ⟨"add_node", SetAddNodeData addNode, "", ""⟩ now

/-- Go `core.MakeSigningPayload`: JSON of the anonymous struct with only
the type and data fields. -/
def MakeSigningPayload (p : BlockPayload) : String :=
  "\x7b\"type\":" ++ jsonQuote p.Type' ++ ",\"data\":" ++ jsonRawData p.Data ++ "\x7d"

/-- Go `(*Block).IsGenesisBlock`: index 0 and prev_hash the literal 0. -/
def Block.IsGenesisBlock (b : Block) : Bool :=
  b.Header.Index == 0 && b.Header.PrevHash == "0"

/-! ## Chain (core/chain.go)

The Go `Chain` carries the block slice and a duplicate-detection hash set
(a Go map whose only observations are membership); the set is modelled as
the list of its keys in insertion order. The mutex is irrelevant to the
sequential semantics. Mutating methods return the new chain next to the
Go return value; on an error the chain comes back unchanged, as in Go. -/

structure Chain where
  blocks : List Block
  hashSet : List String
  deriving DecidableEq

/-- Go `core.NewChain`: a fresh chain holding only the fixed genesis block. -/
def NewChain : Chain :=
  let genesis := NewGenesisBlockFixed
  ⟨[genesis], [genesis.Header.Hash]⟩

/-- Go `core.NewChainFromBlocks`: build from stored blocks as they are
(no fresh genesis); rejects an empty list and a first block that is not a
genesis block. -/
def NewChainFromBlocks (blocks : List Block) : Except String Chain :=
  match blocks with
  | [] => .error "blocks is empty"
  | g :: _ =>
    if g.IsGenesisBlock then .ok ⟨blocks, blocks.map (fun b => b.Header.Hash)⟩
    else .error "first block is not a genesis block"

/-- Go `(*Chain).AddBlock`: validate, check linkage against the tail when
the chain is non-empty, reject duplicate hashes, then append atomically. -/
def Chain.AddBlock (c : Chain) (b : Block) : Except String Unit × Chain :=
  match ValidateBlock b with
  | .error e => (.error ("block validation failed: " ++ e), c)
  | .ok _ =>
    match c.blocks.getLast? with
    | some lastBlock =>
      if b.Header.PrevHash ≠ lastBlock.Header.Hash then
        (.error ("prev_hash mismatch: expected " ++ lastBlock.Header.Hash ++ ", got " ++ b.Header.PrevHash), c)
      else if b.Header.Index ≠ lastBlock.Header.Index + 1 then
        (.error ("index mismatch: expected " ++ intDec (lastBlock.Header.Index + 1) ++ ", got " ++ intDec b.Header.Index), c)
      else if b.Header.Hash ∈ c.hashSet then
        (.error ("duplicate block: " ++ b.Header.Hash), c)
      else
        (.ok (), ⟨c.blocks ++ [b], c.hashSet ++ [b.Header.Hash]⟩)
    | none =>
      if b.Header.Hash ∈ c.hashSet then
        (.error ("duplicate block: " ++ b.Header.Hash), c)
      else
        (.ok (), ⟨c.blocks ++ [b], c.hashSet ++ [b.Header.Hash]⟩)

/-- Go `(*Chain).GetBlocks` (the copy is the list itself in a pure model). -/
def Chain.GetBlocks (c : Chain) : List Block := c.blocks

/-- Go `(*Chain).LastBlock`: the tail block, or nil for an empty chain. -/
def Chain.LastBlock (c : Chain) : Option Block := c.blocks.getLast?

/-- Go `(*Chain).Len`. -/
def Chain.Len (c : Chain) : Nat := c.blocks.length

/-- The i ≥ 1 loop of Go `(*Chain).ValidateChain`: each block must pass
`ValidateBlock` and extend its predecessor by hash and by index. -/
def validateChainFrom : Nat → Block → List Block → Except String Unit
  | _, _, [] => .ok ()
  | i, prev, current :: rest =>
    match ValidateBlock current with
    | .error e => .error ("block at index " ++ natDec i ++ " validation failed: " ++ e)
    | .ok _ =>
      if current.Header.PrevHash ≠ prev.Header.Hash then
        .error ("block at index " ++ natDec i ++ " has invalid prev_hash")
      else if current.Header.Index ≠ prev.Header.Index + 1 then
        .error ("block at index " ++ natDec i ++ " has invalid index")
      else validateChainFrom (i + 1) current rest

/-- Go `(*Chain).ValidateChain`: non-empty, first block passes
`IsGenesisBlock`, and every later block passes `ValidateBlock` and the
linkage checks (the loop starts at i = 1). -/
def Chain.ValidateChain (c : Chain) : Except String Unit :=
  match c.blocks with
  | [] => .error "empty chain"
  | genesis :: rest =>
    if genesis.IsGenesisBlock then validateChainFrom 1 genesis rest
    else .error "first block is not a valid genesis block"

/-- The per-block loop of Go `(*Chain).ReplaceChain`: validate every block
and collect the hashes, rejecting a duplicate. -/
def replaceChainScan : List Block → List String → Except String (List String)
  | [], acc => .ok acc
  | b :: bs, acc =>
    match ValidateBlock b with
    | .error e => .error ("new chain contains invalid block: " ++ e)
    | .ok _ =>
      if b.Header.Hash ∈ acc then .error ("new chain contains duplicate block: " ++ b.Header.Hash)
      else replaceChainScan bs (acc ++ [b.Header.Hash])

/-- The linkage loop of Go `(*Chain).ReplaceChain`. -/
def replaceChainLinks : Nat → Block → List Block → Except String Unit
  | _, _, [] => .ok ()
  | i, prev, current :: rest =>
    if current.Header.PrevHash ≠ prev.Header.Hash then
      .error ("new chain has broken link at index " ++ natDec i)
    else if current.Header.Index ≠ prev.Header.Index + 1 then
      .error ("new chain has invalid index at " ++ natDec i)
    else replaceChainLinks (i + 1) current rest

/-- Go `(*Chain).ReplaceChain` (longest-chain rule): accept only a
strictly longer candidate whose blocks all validate with pairwise
distinct hashes, whose first block is a genesis block and whose linkage
is consistent; then replace wholesale, else keep the chain untouched. -/
def Chain.ReplaceChain (c : Chain) (blocks : List Block) : Except String Unit × Chain :=
  if blocks.length = 0 then (.error "new chain is empty", c)
  else if blocks.length ≤ c.blocks.length then
    (.error ("new chain is not longer: new length " ++ natDec blocks.length ++ ", current length " ++ natDec c.blocks.length), c)
  else
    match replaceChainScan blocks [] with
    | .error e => (.error e, c)
    | .ok newHashSet =>
      match blocks with
      | [] => (.error "new chain is empty", c)
      | g :: rest =>
        if g.IsGenesisBlock then
          match replaceChainLinks 1 g rest with
          | .error e => (.error e, c)
          | .ok _ => (.ok (), ⟨blocks, newHashSet⟩)
        else (.error "new chain does not start with genesis block", c)

/-- Go `(*Chain).HasBlock`: membership in the hash set. -/
def Chain.HasBlock (c : Chain) (hash : String) : Bool := c.hashSet.contains hash

/-- Go `(*Chain).GetLastHash`: the tail hash, or the empty string. -/
def Chain.GetLastHash (c : Chain) : String :=
  match c.blocks.getLast? with
  | none => ""
  | some b => b.Header.Hash

/-- Go `(*Chain).GetLastIndex`: the tail index, or -1 for an empty chain. -/
def Chain.GetLastIndex (c : Chain) : Int :=
  match c.blocks.getLast? with
  | none => -1
  | some b => b.Header.Index

/-! ## Pending pool (core/pending.go)

The Go pool is a map id → *PendingTransaction under a lock; it is
modelled as an association list whose only observations are lookup and
the (order-irrelevant) value list. -/

/-- Go `core.PendingTransaction`. -/
structure PendingTransaction where
  ID : String
  CreatedAt : GoTime
  Payload : BlockPayload
  deriving DecidableEq

/-- The pool's id → PendingTransaction map. -/
abbrev PendingPool := List (String × PendingTransaction)

/-- Go `(*PendingPool).Add`: insert, overwriting a same-id entry. -/
def PendingPool.Add (p : PendingPool) (pt : PendingTransaction) : PendingPool :=
  (pt.ID, pt) :: p.filter (fun kv => kv.1 ≠ pt.ID)

/-- Go `(*PendingPool).Remove`. -/
def PendingPool.Remove (p : PendingPool) (id : String) : PendingPool :=
  p.filter (fun kv => kv.1 ≠ id)

/-- Go `(*PendingPool).Get`: the entry, or nil. -/
def PendingPool.Get (p : PendingPool) (id : String) : Option PendingTransaction :=
  (p.find? (fun kv => kv.1 == id)).map (fun kv => kv.2)

/-- Go `(*PendingPool).List`: the values (iteration order unspecified in
Go; insertion order here). -/
def PendingPool.List (p : PendingPool) : List PendingTransaction :=
  p.map (fun kv => kv.2)

/-- Go `core.NewPendingTransaction` (`time.Now().UTC()` passed explicitly). -/
def NewPendingTransaction (id : String) (payload : BlockPayload) (now : GoTime) : PendingTransaction :=
  ⟨id, now, payload⟩

/-- Go `core.GenerateID`: SHA-256 of UnixNano ++ type ++ raw data bytes. -/
def GenerateID (payload : BlockPayload) (t : GoTime) : String :=
  CalcSHA256 (intDec t.unixNano ++ payload.Type' ++ rawString payload.Data)

/-- Go `(*PendingTransaction).GetTransactionData`. -/
def PendingTransaction.GetTransactionData (pt : PendingTransaction) : Except String TransactionData :=
  if pt.Payload.Type' ≠ "transaction" then
    .error ("payload type is not transaction: " ++ pt.Payload.Type')
  else
    match pt.Payload.Data with
    | .tx t => .ok t
    | _ => .error "failed to unmarshal transaction data"

/-! ## Ed25519 and codecs (crypto package), symbolic

The Ed25519/base64/hex primitives are Go library code; per §4.1 of the
spec they form a sign/verify pair over opaque key strings. They are
modelled symbolically: a private key is an opaque string, its public key
and the hex encoding of the public key are tagged wrappings, a signature
is a tagged encoding of the private key and the message, and `Verify`
accepts exactly the signature of the matching private key over the given
message (never throws; false on a pub key that decodes to nothing). -/

/-- Symbolic `priv.Public()`: the public key determined by a private key. -/
def pubOfPriv (priv : String) : String := ⟨'p' :: 'u' :: 'b' :: ':' :: priv.data⟩

/-- Symbolic hex encoding of a public key (Go `hex.EncodeToString(pub)`). -/
def hexOfPubKey (pub : String) : String := ⟨'h' :: 'e' :: 'x' :: ':' :: pub.data⟩

/-- Go `crypto.HexToPublicKey`: decode a hex public key, rejecting
strings that are not a hex encoding of a size-32 key — symbolically,
exactly the `hexOfPubKey` images decode. -/
def HexToPublicKey (s : String) : Except String String :=
  match s.data with
  | 'h' :: 'e' :: 'x' :: ':' :: rest => .ok ⟨rest⟩
  | _ => .error "failed to decode hex public key"

/-- The private key a symbolic public key belongs to, if any. -/
def privOfPub (pub : String) : Option String :=
  match pub.data with
  | 'p' :: 'u' :: 'b' :: ':' :: rest => some ⟨rest⟩
  | _ => none

/-- Go `crypto.Sign`: base64 Ed25519 signature — symbolically a tagged
encoding of the signing key and the message. -/
def Sign (privKey : String) (data : String) : String :=
  "sig:" ++ privKey ++ ":" ++ data

/-- Go `crypto.Verify`: true exactly for the signature the matching
private key produces over `data`. -/
def Verify (pubKey : String) (data : String) (signatureBase64 : String) : Bool :=
  match privOfPub pubKey with
  | some k => signatureBase64 == Sign k data
  | none => false

/-! ## Wire types (server package) -/

/-- Go `server.BlockHeader`: `created_at` travels as unix seconds. -/
structure ServerBlockHeader where
  Index : Int
  CreatedAt : Int
  PrevHash : String
  Hash : String
  deriving DecidableEq

/-- Go `server.BlockPayload`: the data variants as optional structs. -/
structure ServerBlockPayload where
  Type' : String
  Transaction : Option TransactionData
  AddNode : Option AddNodeData
  FromSignature : String
  ToSignature : String
  deriving DecidableEq

/-- Go `server.Block`. -/
structure ServerBlock where
  Header : ServerBlockHeader
  Payload : ServerBlockPayload
  deriving DecidableEq

/-- Go `storage.NodeInfo` (= `server.NodeInfo`, field for field). -/
structure NodeInfo where
  Name : String
  NickName : String
  Address : String
  PublicKey : String
  deriving DecidableEq

/-! ## Node orchestrator (node package)

The node's mutable state — chain, pending pool, and the three file-backed
stores (block log, pending snapshot, `nodes/` peer directory) — is one
record; file I/O cannot fail in the model, and the network sends
(broadcast, proposal forwarding) are recorded as a Bool. Functions
mirror the node package's methods and return the Go results next to the
new state. -/

structure NodeState where
  NodeName : String
  PrivKey : String
  chain : Chain
  pendingPool : PendingPool
  blockLog : List Block
  pendingFile : List PendingTransaction
  peers : List (String × NodeInfo)
  deriving DecidableEq

/-- Go `(*NodeStore).LoadAll`: the peer directory (cannot fail in the
model). -/
def NodeStore.LoadAll (s : NodeState) : List (String × NodeInfo) := s.peers

/-- Lookup of a peer map entry (Go `peers[name]`). -/
def lookupNode (peers : List (String × NodeInfo)) (name : String) : Option NodeInfo :=
  (peers.find? (fun kv => kv.1 == name)).map (fun kv => kv.2)

/-- Go `(*NodeStore).Save`: write one peer record, overwriting. -/
def NodeStore.Save (peers : List (String × NodeInfo)) (nodeName : String) (info : NodeInfo) :
    List (String × NodeInfo) :=
  (nodeName, info) :: peers.filter (fun kv => kv.1 ≠ nodeName)

/-- Go `(*Node).verifyBlockSignatures`: nothing to check for non
transaction blocks; otherwise re-marshal the transaction data and verify
each signature against the public key of the peer it names, failing on a
missing signature, an unknown peer, an undecodable key or a bad
signature. -/
def verifyBlockSignatures (s : NodeState) (block : Block) : Except String Unit :=
  if block.Payload.Type' ≠ "transaction" then .ok ()
  else
    match block.GetTransactionData with
    | .error e => .error ("failed to get transaction data: " ++ e)
    | .ok txData =>
      let txDataBytes := jsonTransactionData txData
      let peers := NodeStore.LoadAll s
      if block.Payload.FromSignature = "" then .error "missing from signature"
      else
        match lookupNode peers txData.From with
        | none => .error ("unknown from node: " ++ txData.From)
        | some fromPeer =>
          match HexToPublicKey fromPeer.PublicKey with
          | .error e => .error ("failed to decode from node's public key: " ++ e)
          | .ok fromPubKey =>
            if ¬ Verify fromPubKey txDataBytes block.Payload.FromSignature then
              .error "invalid from signature"
            else if block.Payload.ToSignature = "" then .error "missing to signature"
            else
              match lookupNode peers txData.To with
              | none => .error ("unknown to node: " ++ txData.To)
              | some toPeer =>
                match HexToPublicKey toPeer.PublicKey with
                | .error e => .error ("failed to decode to node's public key: " ++ e)
                | .ok toPubKey =>
                  if ¬ Verify toPubKey txDataBytes block.Payload.ToSignature then
                    .error "invalid to signature"
                  else .ok ()

/-- Go `convertBlockToServer` (node package): unix-seconds wire header,
payload data decoded into its optional struct field. -/
def convertBlockToServer (b : Block) : ServerBlock :=
  let base : ServerBlock :=
    ⟨⟨b.Header.Index, b.Header.CreatedAt.unix, b.Header.PrevHash, b.Header.Hash⟩,
     ⟨b.Payload.Type', none, none, b.Payload.FromSignature, b.Payload.ToSignature⟩⟩
  if b.Payload.Type' = "transaction" then
    match b.GetTransactionData with
    | .ok txData => { base with Payload.Transaction := some txData }
    | .error _ => base
  else if b.Payload.Type' = "add_node" then
    match b.GetAddNodeData with
    | .ok addNodeData => { base with Payload.AddNode := some addNodeData }
    | .error _ => base
  else base

/-- Go `convertServerToBlock`: rebuild the UTC instant from unix seconds
and re-marshal whichever variant struct is present (Transaction first,
as in the source). -/
def convertServerToBlock (b : ServerBlock) : Block :=
  let data : RawData :=
    match b.Payload.Transaction, b.Payload.AddNode with
    | some t, _ => SetTransactionData t
    | none, some a => SetAddNodeData a
    | none, none => .null
  ⟨⟨b.Header.Index, timeUnix b.Header.CreatedAt, b.Header.PrevHash, b.Header.Hash⟩,
   ⟨b.Payload.Type', data, b.Payload.FromSignature, b.Payload.ToSignature⟩⟩

/-- Go `(*Node).ReceiveBlock`: hash revalidation, signature verification,
then the prev-hash/index triage — append + persist + re-broadcast on an
exact extension of the tail, a sync-needed error for a block ahead of the
tail, silence for a block already held, and a behind-or-conflicting
error otherwise. The Bool records whether the block was re-broadcast. -/
def ReceiveBlock (s : NodeState) (b : ServerBlock) : Except String Unit × NodeState × Bool :=
  let coreBlock := convertServerToBlock b
  match ValidateBlock coreBlock with
  | .error e => (.error ("block validation failed: " ++ e), s, false)
  | .ok _ =>
    match verifyBlockSignatures s coreBlock with
    | .error e => (.error ("signature verification failed: " ++ e), s, false)
    | .ok _ =>
      let lastHash := s.chain.GetLastHash
      let lastIndex := s.chain.GetLastIndex
      if coreBlock.Header.PrevHash = lastHash then
        match s.chain.AddBlock coreBlock with
        | (.error e, _) => (.error ("failed to add block: " ++ e), s, false)
        | (.ok _, chain2) =>
          (.ok (), { s with chain := chain2, blockLog := s.blockLog ++ [coreBlock] }, true)
      else if lastIndex < coreBlock.Header.Index then
        (.error ("block index " ++ intDec coreBlock.Header.Index ++ " is ahead of our chain " ++ intDec lastIndex ++ ", sync needed"), s, false)
      else if s.chain.HasBlock coreBlock.Header.Hash then
        (.ok (), s, false)
      else
        (.error ("block index " ++ intDec coreBlock.Header.Index ++ " is behind or equal to our chain " ++ intDec lastIndex), s, false)

/-- Go `(*Node).ProposeTransaction`: build the payload, auto-sign the
marshalled transaction data with the local key when `fromSignature` is
empty (else keep the supplied one), pool + persist the pending entry,
and forward it when `To` is a known other node (the Bool records the
forward; the two `time.Now()` stamps are the one explicit `now`). -/
def ProposeTransaction (s : NodeState) (data : TransactionData) (fromSignature : String)
    (now : GoTime) : Except String Unit × NodeState × Bool :=
  let txData : TransactionData := ⟨data.From, data.To, data.Amount, data.Title⟩
  let txDataBytes := jsonTransactionData txData
  let fromSig := if fromSignature = "" then Sign s.PrivKey txDataBytes else fromSignature
  let payload : BlockPayload := ⟨"transaction", .tx txData, fromSig, ""⟩
  let id := GenerateID payload now
  let pendingTx := NewPendingTransaction id payload now
  let pool2 := PendingPool.Add s.pendingPool pendingTx
  let s2 := { s with pendingPool := pool2, pendingFile := PendingPool.List pool2 }
  let forward := data.To ≠ s.NodeName ∧ (lookupNode s.peers data.To).isSome
  (.ok (), s2, decide forward)

/-- Go `(*Node).ApproveTransaction`: look the pending entry up, sign the
same marshalled transaction data with the local key as `to_signature`,
build the block at tail+1, append, persist, drop the pending entry. A
nil tail would be a Go nil-pointer panic; the model returns an error
there (see the reachable-chain invariant). -/
def ApproveTransaction (s : NodeState) (id : String) (now : GoTime) :
    Except String ServerBlock × NodeState :=
  match PendingPool.Get s.pendingPool id with
  | none => (.error ("pending transaction not found: " ++ id), s)
  | some pendingTx =>
    match pendingTx.GetTransactionData with
    | .error e => (.error ("failed to get transaction data: " ++ e), s)
    | .ok txData =>
      let txDataBytes := jsonTransactionData txData
      let toSignature := Sign s.PrivKey txDataBytes
      match s.chain.LastBlock with
      | none => (.error "panic: nil last block", s)
      | some lastBlock =>
        let block := CreateBlockWithTransaction (lastBlock.Header.Index + 1)
          lastBlock.Header.Hash txData pendingTx.Payload.FromSignature toSignature now
        match s.chain.AddBlock block with
        | (.error e, _) => (.error ("failed to add block to chain: " ++ e), s)
        | (.ok _, chain2) =>
          let pool2 := PendingPool.Remove s.pendingPool id
          (.ok (convertBlockToServer block),
           { s with chain := chain2, blockLog := s.blockLog ++ [block],
                    pendingPool := pool2, pendingFile := PendingPool.List pool2 })

/-- Go `(*Node).RegisterNode`: build an add_node block at tail+1, append,
persist, write the peer record (a nil tail again modelled as an error in
place of the Go panic). -/
def RegisterNode (s : NodeState) (nodeName nickName address publicKey : String) (now : GoTime) :
    Except String ServerBlock × NodeState :=
  match s.chain.LastBlock with
  | none => (.error "panic: nil last block", s)
  | some lastBlock =>
    let addNodeData : AddNodeData := ⟨publicKey, nodeName, nickName, address⟩
    let block := CreateBlockWithAddNode (lastBlock.Header.Index + 1) lastBlock.Header.Hash
      addNodeData now
    match s.chain.AddBlock block with
    | (.error e, _) => (.error ("failed to add block to chain: " ++ e), s)
    | (.ok _, chain2) =>
      let info : NodeInfo := ⟨nodeName, nickName, address, publicKey⟩
      (.ok (convertBlockToServer block),
       { s with chain := chain2, blockLog := s.blockLog ++ [block],
                peers := NodeStore.Save s.peers nodeName info })

/-! ## Register handler (server/handler_register.go) -/

/-- One character of the safe-name class `[a-zA-Z0-9_-]`. -/
def isSafeNameChar (c : Char) : Bool :=
  ('a' ≤ c && c ≤ 'z') || ('A' ≤ c && c ≤ 'Z') || ('0' ≤ c && c ≤ '9') || c == '_' || c == '-'

/-- Go `regexp.MustCompile("^[a-zA-Z0-9_-]+$").MatchString`: at least one
character, all from the safe class. -/
def matchSafeName (s : String) : Bool := !s.data.isEmpty && s.data.all isSafeNameChar

/-- Go `handleRegister` after JSON decoding: field validation (in source
order), then `RegisterNode`; 400 on any failure, else 200 and a
broadcast of the new block (the Bool). -/
def handleRegister (s : NodeState) (nodeName nickName address publicKey : String) (now : GoTime) :
    Nat × NodeState × Bool :=
  if nodeName = "" then (400, s, false)
  else if ¬ matchSafeName nodeName then (400, s, false)
  else if nickName = "" then (400, s, false)
  else if address = "" then (400, s, false)
  else if publicKey = "" then (400, s, false)
  else
    match RegisterNode s nodeName nickName address publicKey now with
    | (.error _, s2) => (400, s2, false)
    | (.ok _, s2) => (200, s2, true)

/-! ## Helper lemmas -/

theorem length_flatMap_two (f g : Nat → Char) :
    ∀ l : List Nat, (l.flatMap (fun b => [f b, g b])).length = 2 * l.length := by
  intro l
  induction l with
  | nil => rfl
  | cons x xs ih => simp [List.flatMap_cons, ih]; ring

/-- Length of the hex rendering: two characters per byte. -/
theorem hexOfBytes_length (l : List Nat) : (hexOfBytes l).length = 2 * l.length := by
  simpa [hexOfBytes, String.length] using length_flatMap_two (fun b => hexDigit (b / 16)) (fun b => hexDigit (b % 16)) l

/-- The SHA-256 digest has 32 bytes whatever the message. -/
theorem sha256Bytes_length (msg : List Nat) : (sha256Bytes msg).length = 32 := by
  simp [sha256Bytes, word4]

/-- A `CalcSHA256` value is 64 characters long. -/
theorem calcSHA256_length (s : String) : (CalcSHA256 s).length = 64 := by
  simp [CalcSHA256, hexOfBytes_length, sha256Bytes_length]

/-- A `CalcBlockHash` value is 64 characters long. -/
theorem calcBlockHash_length (b : Block) : (CalcBlockHash b).length = 64 := by
  simp [CalcBlockHash, hexOfBytes_length, sha256Bytes_length]

theorem privOfPub_pubOfPriv (k : String) : privOfPub (pubOfPriv k) = some k := by
  cases k
  rfl

theorem hexToPublicKey_hexOfPubKey (p : String) : HexToPublicKey (hexOfPubKey p) = .ok p := by
  cases p
  rfl

theorem verify_sign (k m : String) : Verify (pubOfPriv k) m (Sign k m) = true := by
  simp [Verify, privOfPub_pubOfPriv]

theorem sign_ne_empty (k m : String) : Sign k m ≠ "" := by
  intro h
  have h2 := congrArg String.data h
  simp [Sign] at h2

/-- `ValidateBlock` accepts every `NewBlock` with a valid payload type:
the stored hash is definitionally the recomputed one. -/
theorem validateBlock_newBlock (index : Int) (prevHash : String) (payload : BlockPayload)
    (now : GoTime) (h : payload.Type' = "transaction" ∨ payload.Type' = "add_node") :
    ValidateBlock (NewBlock index prevHash payload now) = .ok () := by
  have hh : CalcBlockHash (NewBlock index prevHash payload now)
      = (NewBlock index prevHash payload now).Header.Hash := rfl
  rw [ValidateBlock, if_neg (by simp [hh])]
  have hp : (NewBlock index prevHash payload now).Payload = payload := rfl
  rw [hp, if_pos h]

/-- `ValidateBlock` accepted a block exactly when the hash matches and
the type is valid. -/
theorem validateBlock_ok_iff (b : Block) :
    ValidateBlock b = .ok () ↔
      CalcBlockHash b = b.Header.Hash ∧
        (b.Payload.Type' = "transaction" ∨ b.Payload.Type' = "add_node") := by
  rw [ValidateBlock]
  by_cases h1 : CalcBlockHash b = b.Header.Hash
  · rw [if_neg (by simpa using h1)]
    by_cases h2 : b.Payload.Type' = "transaction" ∨ b.Payload.Type' = "add_node"
    · simp [if_pos h2, h1, h2]
    · simp [if_neg h2, h2]
  · simp [if_pos (by simpa using h1), h1]

/-! ## Claim C5 — the block-hash pre-image -/

/-- Spec §4.2 word for word: the byte string
decimal(index) ++ rfc3339(created_at_utc) ++ prev_hash ++
canonical_json(payload_including_signatures). -/
def specBlockHashPreimage (b : Block) : String :=
  intDec b.Header.Index ++ rfc3339OfTime b.Header.CreatedAt ++ b.Header.PrevHash ++
    jsonBlockPayload b.Payload

/-- C5: for every block, CalcBlockHash equals the lowercase-hex SHA-256 of
decimal(index) || RFC-3339(created_at UTC) || prev_hash || JSON(payload
with both signature fields), and the value does not depend on the block's
own hash field. -/
theorem C5_block_hash_preimage (b : Block) (h : String) :
    CalcBlockHash b = CalcSHA256 (specBlockHashPreimage b) ∧
      CalcBlockHash ⟨⟨b.Header.Index, b.Header.CreatedAt, b.Header.PrevHash, h⟩, b.Payload⟩ =
        CalcBlockHash b :=
  ⟨rfl, rfl⟩

/-! ## Claim C4 — ValidateChain -/

/-- A genesis-shaped block whose stored hash is not the recomputed one. -/
def gBadC4 : Block := ⟨⟨0, goTimeZero, "0", "nothash"⟩, ⟨"add_node", .addNode genesisAddNodeData, "", ""⟩⟩

/-- A chain holding only `gBadC4`. -/
def chainBadC4 : Chain := ⟨[gBadC4], ["nothash"]⟩

/-- C4 counterexample: `ValidateChain` accepts a chain whose genesis
block's stored hash differs from the recomputed hash — the validation
loop starts at index 1 and the genesis check looks only at index and
prev_hash, so invariant I4 is not enforced at position 0. -/
theorem C4_counterexample :
    Chain.ValidateChain chainBadC4 = .ok () ∧ gBadC4.Header.Hash ≠ CalcBlockHash gBadC4 := by
  constructor
  · rfl
  · decide

/-- The amended condition `ValidateChain` actually decides: blocks after
the first pass `ValidateBlock` and the prev_hash/index linkage. -/
def chainTailLinked (prev : Block) : List Block → Prop
  | [] => True
  | b :: rest =>
    ValidateBlock b = .ok () ∧ b.Header.PrevHash = prev.Header.Hash ∧
      b.Header.Index = prev.Header.Index + 1 ∧ chainTailLinked b rest

/-- The amended condition for the whole chain: non-empty, first block of
genesis shape (index 0, prev_hash the literal 0 — hash not recomputed),
and the tail linked; hash uniqueness (I5) is not part of it. -/
def validChainSpec (c : Chain) : Prop :=
  match c.blocks with
  | [] => False
  | g :: rest => g.IsGenesisBlock = true ∧ chainTailLinked g rest

theorem validateChainFrom_ok_iff (rest : List Block) :
    ∀ (i : Nat) (prev : Block), validateChainFrom i prev rest = .ok () ↔ chainTailLinked prev rest := by
  induction rest with
  | nil => intro i prev; simp [validateChainFrom, chainTailLinked]
  | cons b rest ih =>
    intro i prev
    rw [validateChainFrom, chainTailLinked]
    cases hv : ValidateBlock b with
    | error e => simp [hv]
    | ok u =>
      cases u
      by_cases h1 : b.Header.PrevHash = prev.Header.Hash
      · rw [if_neg (by simpa using h1)]
        by_cases h2 : b.Header.Index = prev.Header.Index + 1
        · rw [if_neg (by simpa using h2)]
          simp [hv, h1, h2, ih]
        · simp [if_pos (by simpa using h2), h1, h2]
      · simp [if_pos (by simpa using h1), h1]

/-- C4 (amended): `ValidateChain` returns ok iff the chain is non-empty,
its first block has index 0 and prev_hash the literal 0, and every later
block passes `ValidateBlock` and the linkage checks. It does not
recompute the genesis block's hash and does not check hash uniqueness. -/
theorem C4_validate_chain_iff (c : Chain) :
    Chain.ValidateChain c = .ok () ↔ validChainSpec c := by
  rw [Chain.ValidateChain, validChainSpec]
  cases hb : c.blocks with
  | nil => simp
  | cons g rest =>
    by_cases hg : g.IsGenesisBlock
    · simp [hg, validateChainFrom_ok_iff]
    · simp [hg]

/-! ## Claim C10 — reachable chains keep a genesis head -/

theorem mem_of_getLast?_eq {l : List Block} {a : Block} (h : l.getLast? = some a) : a ∈ l := by
  have hm : a ∈ l.getLast? := Option.mem_def.mpr h
  rcases List.mem_getLast?_eq_getLast hm with ⟨hne, he⟩
  rw [he]
  exact List.getLast_mem hne

/-- Case split on `AddBlock`: either the chain is returned untouched, or
the block is appended after the linkage checks (trivially satisfied by an
empty chain) passed. -/
theorem addBlock_result (c : Chain) (b : Block) :
    (c.AddBlock b).2 = c ∨
      ((c.AddBlock b).2 = ⟨c.blocks ++ [b], c.hashSet ++ [b.Header.Hash]⟩ ∧
        (c.blocks = [] ∨ ∃ lastBlock, c.blocks.getLast? = some lastBlock ∧
          b.Header.PrevHash = lastBlock.Header.Hash ∧
          b.Header.Index = lastBlock.Header.Index + 1)) := by
  rw [Chain.AddBlock]
  cases hv : ValidateBlock b with
  | error e => exact Or.inl rfl
  | ok u =>
    cases u
    dsimp only
    cases hl : c.blocks.getLast? with
    | none =>
      dsimp only
      by_cases hm : b.Header.Hash ∈ c.hashSet
      · exact Or.inl (by simp [hm])
      · refine Or.inr ⟨by simp [hm], Or.inl ?_⟩
        cases hb : c.blocks with
        | nil => rfl
        | cons x xs => rw [hb] at hl; simp [List.getLast?_eq_none_iff] at hl
    | some lastBlock =>
      dsimp only
      by_cases h1 : b.Header.PrevHash = lastBlock.Header.Hash
      · rw [if_neg (by simpa using h1)]
        by_cases h2 : b.Header.Index = lastBlock.Header.Index + 1
        · rw [if_neg (by simpa using h2)]
          by_cases hm : b.Header.Hash ∈ c.hashSet
          · exact Or.inl (by simp [hm])
          · exact Or.inr ⟨by simp [hm], Or.inr ⟨lastBlock, rfl, h1, h2⟩⟩
        · exact Or.inl (by simp [if_pos (by simpa using h2)])
      · exact Or.inl (by simp [if_pos (by simpa using h1)])

/-- Case split on `ReplaceChain`: either the chain is returned untouched,
or the candidate is installed after every check passed. -/
theorem replaceChain_result (c : Chain) (bs : List Block) :
    (c.ReplaceChain bs).2 = c ∨
      (∃ hs, (c.ReplaceChain bs).2 = ⟨bs, hs⟩) ∧
        c.blocks.length < bs.length ∧
        (∃ g rest, bs = g :: rest ∧ g.IsGenesisBlock = true ∧
          replaceChainLinks 1 g rest = .ok ()) := by
  rw [Chain.ReplaceChain]
  by_cases h0 : bs.length = 0
  · exact Or.inl (by simp [h0])
  · rw [if_neg h0]
    by_cases h1 : bs.length ≤ c.blocks.length
    · exact Or.inl (by simp [h1])
    · rw [if_neg h1]
      cases hsc : replaceChainScan bs [] with
      | error e => exact Or.inl rfl
      | ok hs =>
        dsimp only
        cases hb : bs with
        | nil => exact Or.inl rfl
        | cons g rest =>
          dsimp only
          by_cases hg : g.IsGenesisBlock
          · rw [if_pos hg]
            cases hlk : replaceChainLinks 1 g rest with
            | error e => exact Or.inl rfl
            | ok u =>
              cases u
              exact Or.inr ⟨⟨hs, rfl⟩, by rw [← hb]; omega, g, rest, rfl, hg, hlk⟩
          · exact Or.inl (by simp [hg])

/-- Consecutive indices starting at `n`. -/
def indexedFrom : Int → List Block → Prop
  | _, [] => True
  | n, b :: rest => b.Header.Index = n ∧ indexedFrom (n + 1) rest

/-- The first block exists and has index 0 and prev_hash the literal 0. -/
def chainGenesisHead (c : Chain) : Prop :=
  match c.blocks with
  | [] => False
  | g :: _ => g.Header.Index = 0 ∧ g.Header.PrevHash = "0"

/-- `chainGenesisHead` plus consecutive indices from 0. -/
def chainWF (c : Chain) : Prop :=
  chainGenesisHead c ∧ indexedFrom 0 c.blocks

theorem indexedFrom_snoc : ∀ (l : List Block) (n : Int) (last b : Block),
    indexedFrom n l → l.getLast? = some last → b.Header.Index = last.Header.Index + 1 →
    indexedFrom n (l ++ [b])
  | [], _, _, _, _, hl, _ => by simp at hl
  | [x], n, last, b, hi, hl, hb => by
    simp only [List.getLast?_singleton, Option.some.injEq] at hl
    rcases hi with ⟨hx, -⟩
    subst hl
    exact ⟨hx, by rw [hb, hx], trivial⟩
  | x :: y :: xs, n, last, b, hi, hl, hb => by
    rw [List.getLast?_cons_cons] at hl
    rcases hi with ⟨hx, hrest⟩
    exact ⟨hx, indexedFrom_snoc (y :: xs) (n + 1) last b hrest hl hb⟩

theorem indexedFrom_getLast : ∀ (l : List Block) (n : Int) (last : Block),
    indexedFrom n l → l.getLast? = some last →
    last.Header.Index = n + (l.length : Int) - 1
  | [], _, _, _, hl => by simp at hl
  | [x], n, last, hi, hl => by
    simp only [List.getLast?_singleton, Option.some.injEq] at hl
    subst hl
    rcases hi with ⟨hx, -⟩
    simpa using hx
  | x :: y :: xs, n, last, hi, hl => by
    rw [List.getLast?_cons_cons] at hl
    rcases hi with ⟨-, hrest⟩
    have := indexedFrom_getLast (y :: xs) (n + 1) last hrest hl
    rw [this]
    simp
    ring

theorem replaceChainLinks_indexed : ∀ (rest : List Block) (i : Nat) (prev : Block),
    replaceChainLinks i prev rest = .ok () → indexedFrom (prev.Header.Index + 1) rest
  | [], _, _, _ => trivial
  | b :: rest, i, prev, h => by
    rw [replaceChainLinks] at h
    by_cases h1 : b.Header.PrevHash = prev.Header.Hash
    · rw [if_neg (by simpa using h1)] at h
      by_cases h2 : b.Header.Index = prev.Header.Index + 1
      · rw [if_neg (by simpa using h2)] at h
        exact ⟨h2, h2 ▸ replaceChainLinks_indexed rest (i + 1) b h⟩
      · rw [if_pos (by simpa using h2)] at h
        exact absurd h (by simp)
    · rw [if_pos (by simpa using h1)] at h
      exact absurd h (by simp)

theorem chainWF_newChain : chainWF NewChain :=
  ⟨⟨rfl, rfl⟩, rfl, trivial⟩

theorem chainGenesisHead_elim {c : Chain} {g : Block} {rest : List Block}
    (hb : c.blocks = g :: rest) (h : chainGenesisHead c) :
    g.Header.Index = 0 ∧ g.Header.PrevHash = "0" := by
  rw [chainGenesisHead.eq_def, hb] at h
  exact h

theorem chainGenesisHead_intro {c : Chain} {g : Block} {rest : List Block}
    (hb : c.blocks = g :: rest) (h1 : g.Header.Index = 0) (h2 : g.Header.PrevHash = "0") :
    chainGenesisHead c := by
  rw [chainGenesisHead.eq_def, hb]
  exact ⟨h1, h2⟩

theorem chainGenesisHead_nonempty {c : Chain} (h : chainGenesisHead c) : c.blocks ≠ [] := by
  intro hb
  rw [chainGenesisHead.eq_def, hb] at h
  exact h

theorem chainWF_addBlock (c : Chain) (b : Block) (h : chainWF c) : chainWF (c.AddBlock b).2 := by
  rcases addBlock_result c b with heq | ⟨heq, hcase⟩
  · rwa [heq]
  · rcases h with ⟨hgen, hidx⟩
    rw [heq]
    cases hb : c.blocks with
    | nil => exact absurd hb (chainGenesisHead_nonempty hgen)
    | cons g rest =>
      rcases hcase with hnil | ⟨lastBlock, hl, -, hbi⟩
      · rw [hb] at hnil; exact absurd hnil (by simp)
      · rcases chainGenesisHead_elim hb hgen with ⟨h1, h2⟩
        rw [hb] at hidx hl
        exact ⟨chainGenesisHead_intro rfl h1 h2,
          indexedFrom_snoc (g :: rest) 0 lastBlock b hidx hl hbi⟩

theorem isGenesisBlock_iff (b : Block) :
    b.IsGenesisBlock = true ↔ b.Header.Index = 0 ∧ b.Header.PrevHash = "0" := by
  simp [Block.IsGenesisBlock]

theorem chainWF_replaceChain (c : Chain) (bs : List Block) (h : chainWF c) :
    chainWF (c.ReplaceChain bs).2 := by
  rcases replaceChain_result c bs with heq | ⟨⟨hs, heq⟩, -, g, rest, hbs, hg, hlk⟩
  · rwa [heq]
  · rw [heq, hbs]
    rcases (isGenesisBlock_iff g).mp hg with ⟨hgi, hgp⟩
    refine ⟨⟨hgi, hgp⟩, hgi, ?_⟩
    have := replaceChainLinks_indexed rest 1 g hlk
    rwa [hgi] at this

theorem chainWF_fromBlocks (bs : List Block) (c : Chain) (hidx : indexedFrom 0 bs)
    (h : NewChainFromBlocks bs = .ok c) : chainWF c := by
  rw [NewChainFromBlocks.eq_def] at h
  cases hb : bs with
  | nil => rw [hb] at h; exact absurd h (by simp)
  | cons g rest =>
    rw [hb] at h hidx
    dsimp only at h
    by_cases hg : g.IsGenesisBlock
    · rw [if_pos hg] at h
      have hc : c = ⟨g :: rest, (g :: rest).map (fun b => b.Header.Hash)⟩ := by
        injection h with h'; exact h'.symm
      rcases (isGenesisBlock_iff g).mp hg with ⟨hgi, hgp⟩
      rw [hc]
      exact ⟨⟨hgi, hgp⟩, hidx⟩
    · rw [if_neg hg] at h; exact absurd h (by simp)

/-- Like `chainWF_fromBlocks` but only the genesis head (no index
hypothesis): `NewChainFromBlocks` checks nothing about the tail. -/
theorem chainGenesisHead_fromBlocks (bs : List Block) (c : Chain)
    (h : NewChainFromBlocks bs = .ok c) : chainGenesisHead c := by
  rw [NewChainFromBlocks.eq_def] at h
  cases hb : bs with
  | nil => rw [hb] at h; exact absurd h (by simp)
  | cons g rest =>
    rw [hb] at h
    dsimp only at h
    by_cases hg : g.IsGenesisBlock
    · rw [if_pos hg] at h
      have hc : c = ⟨g :: rest, (g :: rest).map (fun b => b.Header.Hash)⟩ := by
        injection h with h'; exact h'.symm
      rcases (isGenesisBlock_iff g).mp hg with ⟨hgi, hgp⟩
      rw [hc]
      exact ⟨hgi, hgp⟩
    · rw [if_neg hg] at h; exact absurd h (by simp)

theorem chainGenesisHead_addBlock (c : Chain) (b : Block) (h : chainGenesisHead c) :
    chainGenesisHead (c.AddBlock b).2 := by
  rcases addBlock_result c b with heq | ⟨heq, -⟩
  · rwa [heq]
  · rw [heq]
    cases hb : c.blocks with
    | nil => exact absurd hb (chainGenesisHead_nonempty h)
    | cons g rest =>
      rcases chainGenesisHead_elim hb h with ⟨h1, h2⟩
      exact chainGenesisHead_intro rfl h1 h2

theorem chainGenesisHead_replaceChain (c : Chain) (bs : List Block) (h : chainGenesisHead c) :
    chainGenesisHead (c.ReplaceChain bs).2 := by
  rcases replaceChain_result c bs with heq | ⟨⟨hs, heq⟩, -, g, rest, hbs, hg, -⟩
  · rwa [heq]
  · rw [heq, hbs]
    exact (isGenesisBlock_iff g).mp hg

/-- Chain values reachable through the constructors and the two mutating
operations (any arguments, failures included — a failed call returns the
chain unchanged). -/
inductive ReachableChain : Chain → Prop where
  | init : ReachableChain NewChain
  | fromBlocks (bs : List Block) (c : Chain) :
      NewChainFromBlocks bs = .ok c → ReachableChain c
  | add (c : Chain) (b : Block) : ReachableChain c → ReachableChain (c.AddBlock b).2
  | replace (c : Chain) (bs : List Block) : ReachableChain c → ReachableChain (c.ReplaceChain bs).2

/-- Reachability where the stored blocks handed to `NewChainFromBlocks`
carry consecutive indices from 0 (true of every block log this node
itself wrote). -/
inductive ReachableChainWF : Chain → Prop where
  | init : ReachableChainWF NewChain
  | fromBlocks (bs : List Block) (c : Chain) : indexedFrom 0 bs →
      NewChainFromBlocks bs = .ok c → ReachableChainWF c
  | add (c : Chain) (b : Block) : ReachableChainWF c → ReachableChainWF (c.AddBlock b).2
  | replace (c : Chain) (bs : List Block) : ReachableChainWF c → ReachableChainWF (c.ReplaceChain bs).2

theorem reachable_chainGenesisHead (c : Chain) (h : ReachableChain c) : chainGenesisHead c := by
  induction h with
  | init => exact ⟨rfl, rfl⟩
  | fromBlocks bs c hok => exact chainGenesisHead_fromBlocks bs c hok
  | add c b _ ih => exact chainGenesisHead_addBlock c b ih
  | replace c bs _ ih => exact chainGenesisHead_replaceChain c bs ih

theorem reachableWF_chainWF (c : Chain) (h : ReachableChainWF c) : chainWF c := by
  induction h with
  | init => exact chainWF_newChain
  | fromBlocks bs c hidx hok => exact chainWF_fromBlocks bs c hidx hok
  | add c b _ ih => exact chainWF_addBlock c b ih
  | replace c bs _ ih => exact chainWF_replaceChain c bs ih

/-- C10 counterexample: `NewChainFromBlocks` validates only the first
block's genesis shape, so a stored list whose second block carries index
-1 builds a chain on which `GetLastIndex` returns -1. -/
def gHeadOnlyC10 : Block := ⟨⟨0, goTimeZero, "0", "h0"⟩, ⟨"add_node", .null, "", ""⟩⟩

def bNegC10 : Block := ⟨⟨-1, goTimeZero, "x", "h1"⟩, ⟨"add_node", .null, "", ""⟩⟩

/-- C10 counterexample: a successful `NewChainFromBlocks` on index-0 /
prev_hash 0 head followed by a tail block of index -1 makes
`GetLastIndex` return -1, refuting the claim's "GetLastIndex never
returns -1" for raw reachable chains. -/
theorem C10_counterexample :
    NewChainFromBlocks [gHeadOnlyC10, bNegC10] =
        .ok ⟨[gHeadOnlyC10, bNegC10], ["h0", "h1"]⟩ ∧
      Chain.GetLastIndex ⟨[gHeadOnlyC10, bNegC10], ["h0", "h1"]⟩ = -1 := by
  constructor
  · rfl
  · rfl

/-- C10 (amended): every reachable chain is non-empty with a first block
of index 0 and prev_hash the literal 0, `LastBlock` never returns nil
and the empty-chain branch of `AddBlock` is unreachable; and when the
blocks handed to `NewChainFromBlocks` carry consecutive indices from 0,
`GetLastIndex` equals length - 1 and so never returns -1. -/
theorem C10_reachable_chain_invariant :
    (∀ c : Chain, ReachableChain c →
      c.blocks ≠ [] ∧ chainGenesisHead c ∧ c.LastBlock ≠ none) ∧
    (∀ c : Chain, ReachableChainWF c →
      c.GetLastIndex = (c.blocks.length : Int) - 1 ∧ c.GetLastIndex ≠ -1) := by
  constructor
  · intro c h
    have hg := reachable_chainGenesisHead c h
    have hne := chainGenesisHead_nonempty hg
    refine ⟨hne, hg, ?_⟩
    rw [Chain.LastBlock]
    cases hb : c.blocks with
    | nil => exact absurd hb hne
    | cons g rest => simp [List.getLast?_eq_none_iff]
  · intro c h
    rcases reachableWF_chainWF c h with ⟨hgen, hidx⟩
    cases hb : c.blocks with
    | nil => exact absurd hb (chainGenesisHead_nonempty hgen)
    | cons g rest =>
      rw [hb] at hidx
      cases hl : (g :: rest).getLast? with
      | none => simp [List.getLast?_eq_none_iff] at hl
      | some last =>
        have hli := indexedFrom_getLast (g :: rest) 0 last hidx hl
        have hidxv : Chain.GetLastIndex c = last.Header.Index := by
          rw [Chain.GetLastIndex.eq_def, hb, hl]
        have hlen : 1 ≤ (g :: rest).length := by simp
        constructor
        · rw [hidxv, hli]
          ring
        · rw [hidxv, hli]
          omega

/-! ## Claim C9 — safe peer names -/

theorem matchSafeName_false_of_bad {name : String} {c : Char} (hm : c ∈ name.data)
    (hc : isSafeNameChar c = false) : matchSafeName name = false := by
  cases hall : name.data.all isSafeNameChar with
  | false => simp [matchSafeName, hall]
  | true => exact absurd (List.all_eq_true.mp hall c hm) (by simp [hc])

/-- C9: a register request whose node name is empty or contains a slash,
a backslash, a dot (hence also ".."), or any other character outside
[A-Za-z0-9_-] is rejected with 400 before `RegisterNode` runs: the node
state — the `nodes/` peer directory included — is returned unchanged and
nothing is broadcast. -/
theorem C9_register_rejects_unsafe_names (s : NodeState) (name nick addr pk : String)
    (now : GoTime)
    (h : name = "" ∨ '/' ∈ name.data ∨ '\\' ∈ name.data ∨ '.' ∈ name.data ∨
      ∃ c ∈ name.data, isSafeNameChar c = false) :
    handleRegister s name nick addr pk now = (400, s, false) := by
  by_cases he : name = ""
  · rw [handleRegister, if_pos he]
  · have hbad : ∃ c ∈ name.data, isSafeNameChar c = false := by
      rcases h with h | h | h | h | h
      · exact absurd h he
      · exact ⟨'/', h, by decide⟩
      · exact ⟨'\\', h, by decide⟩
      · exact ⟨'.', h, by decide⟩
      · exact h
    rcases hbad with ⟨c, hm, hc⟩
    have hmf := matchSafeName_false_of_bad hm hc
    rw [handleRegister, if_neg he, if_pos (by simp [hmf])]

/-- C9 witness: the path-traversal name "../etc" is rejected and writes
no peer record. -/
theorem C9_register_rejects_unsafe_names_witness :
    handleRegister ⟨"alice", "kA", NewChain, [], [], [], []⟩ "../etc" "Nick" "addr" "pk" ⟨0, 0⟩ =
      (400, ⟨"alice", "kA", NewChain, [], [], [], []⟩, false) :=
  C9_register_rejects_unsafe_names _ _ _ _ _ _
    (Or.inr (Or.inr (Or.inr (Or.inl (by decide)))))

/-! ## Claim C3 — ReplaceChain and a divergent genesis payload -/

/-- A genesis block carrying a payload different from the fixed
network-constant one. -/
def gDivergentC3 : Block := NewGenesisBlock ⟨"", "mallory", "Other Network", ""⟩

/-- A well-linked add_node block on top of the divergent genesis. -/
def bTailC3 : Block :=
  CreateBlockWithAddNode 1 gDivergentC3.Header.Hash ⟨"", "n1", "N1", "a1"⟩ ⟨1700000000, 0⟩

/-- C3 counterexample: a candidate chain rooted in a genesis block whose
add_node payload differs from the fixed network constant is accepted by
`ReplaceChain` (the genesis check inspects only index and prev_hash),
and the local chain is replaced — the claim says the replace fails and
nothing mutates. -/
theorem C3_counterexample :
    gDivergentC3.Payload ≠ NewGenesisBlockFixed.Payload ∧
      (Chain.ReplaceChain NewChain [gDivergentC3, bTailC3]).1 = .ok () ∧
      (Chain.ReplaceChain NewChain [gDivergentC3, bTailC3]).2.blocks = [gDivergentC3, bTailC3] := by
  decide

/-- C3 (amended): `ReplaceChain`'s genesis test is `IsGenesisBlock`,
which inspects only index 0 and prev_hash 0 — never the payload. Any
strictly longer candidate that passes the per-block scan and the linkage
loop and whose first block has that header shape is accepted and
installed, whatever its genesis payload. -/
theorem C3_replace_ignores_genesis_payload (c : Chain) (g : Block) (rest : List Block)
    (hs : List String)
    (hlen : c.blocks.length < (g :: rest).length)
    (hscan : replaceChainScan (g :: rest) [] = .ok hs)
    (hgen : g.Header.Index = 0 ∧ g.Header.PrevHash = "0")
    (hlink : replaceChainLinks 1 g rest = .ok ()) :
    Chain.ReplaceChain c (g :: rest) = (.ok (), ⟨g :: rest, hs⟩) := by
  rw [Chain.ReplaceChain, if_neg (by simp), if_neg (by omega), hscan]
  dsimp only
  rw [if_pos ((isGenesisBlock_iff g).mpr hgen), hlink]

/-- C3 witness: the amended theorem applied to the divergent-genesis
candidate of the counterexample. -/
theorem C3_replace_ignores_genesis_payload_witness :
    Chain.ReplaceChain NewChain [gDivergentC3, bTailC3] =
      (.ok (), ⟨[gDivergentC3, bTailC3], [gDivergentC3.Header.Hash, bTailC3.Header.Hash]⟩) :=
  C3_replace_ignores_genesis_payload NewChain gDivergentC3 [bTailC3]
    [gDivergentC3.Header.Hash, bTailC3.Header.Hash] (by decide) (by decide) (by decide) (by decide)

/-! ## Claim C7 — the ReplaceChain contract -/

/-- Spec §4.3: consistent prev/index linkage of the candidate. -/
def chainLinkSpec (prev : Block) : List Block → Prop
  | [] => True
  | b :: rest =>
    b.Header.PrevHash = prev.Header.Hash ∧ b.Header.Index = prev.Header.Index + 1 ∧
      chainLinkSpec b rest

/-- Spec §4.3, the acceptance condition of `replace` word for word:
strictly longer, every block passes validate_block, hashes pairwise
distinct, blocks[0] a genesis block, linkage consistent. -/
def replaceChainSpec (c : Chain) (bs : List Block) : Prop :=
  c.blocks.length < bs.length ∧
    (∀ b ∈ bs, ValidateBlock b = .ok ()) ∧
    (bs.map (fun b => b.Header.Hash)).Nodup ∧
    match bs with
    | [] => False
    | g :: rest => g.IsGenesisBlock = true ∧ chainLinkSpec g rest

theorem replaceChainScan_ok_val : ∀ (bs : List Block) (acc hs : List String),
    replaceChainScan bs acc = .ok hs → hs = acc ++ bs.map (fun b => b.Header.Hash)
  | [], acc, hs, h => by
    rw [replaceChainScan] at h
    injection h with h
    simp [h.symm]
  | b :: bs, acc, hs, h => by
    rw [replaceChainScan] at h
    cases hv : ValidateBlock b with
    | error e => rw [hv] at h; exact absurd h (by simp)
    | ok u =>
      cases u
      rw [hv] at h
      dsimp only at h
      by_cases hm : b.Header.Hash ∈ acc
      · rw [if_pos hm] at h; exact absurd h (by simp)
      · rw [if_neg hm] at h
        have := replaceChainScan_ok_val bs (acc ++ [b.Header.Hash]) hs h
        simpa using this

/-- Success of the scan loop, with the freshness condition relative to
the accumulator. -/
theorem replaceChainScan_ok_iff : ∀ (bs : List Block) (acc : List String),
    (∃ hs, replaceChainScan bs acc = .ok hs) ↔
      (∀ b ∈ bs, ValidateBlock b = .ok ()) ∧
        (bs.map (fun b => b.Header.Hash)).Nodup ∧
        ∀ x ∈ bs.map (fun b => b.Header.Hash), x ∉ acc
  | [], acc => by simp [replaceChainScan]
  | b :: bs, acc => by
    rw [replaceChainScan]
    cases hv : ValidateBlock b with
    | error e =>
      constructor
      · rintro ⟨hs, h⟩; exact absurd h (by simp)
      · rintro ⟨hall, -⟩
        exact absurd (hall b (List.mem_cons_self b bs)) (by simp [hv])
    | ok u =>
      cases u
      dsimp only
      by_cases hm : b.Header.Hash ∈ acc
      · rw [if_pos hm]
        constructor
        · rintro ⟨hs, h⟩; exact absurd h (by simp)
        · rintro ⟨-, -, hfresh⟩
          exact absurd hm (hfresh b.Header.Hash (by simp))
      · rw [if_neg hm]
        rw [replaceChainScan_ok_iff bs (acc ++ [b.Header.Hash])]
        constructor
        · rintro ⟨hall, hnd, hfresh⟩
          refine ⟨?_, ?_, ?_⟩
          · intro x hx
            rcases List.mem_cons.mp hx with hx | hx
            · rw [hx]; exact hv
            · exact hall x hx
          · rw [List.map_cons, List.nodup_cons]
            refine ⟨?_, hnd⟩
            intro hmem
            exact absurd (List.mem_append_right acc (by simp)) (hfresh b.Header.Hash hmem)
          · intro x hx
            rw [List.map_cons] at hx
            rcases List.mem_cons.mp hx with hx | hx
            · rw [hx]; exact hm
            · intro hxa
              exact absurd (List.mem_append_left [b.Header.Hash] hxa) (hfresh x hx)
        · rintro ⟨hall, hnd, hfresh⟩
          rw [List.map_cons, List.nodup_cons] at hnd
          refine ⟨?_, hnd.2, ?_⟩
          · intro x hx; exact hall x (List.mem_cons_of_mem b hx)
          · intro x hx hxm
            rcases List.mem_append.mp hxm with hxa | hxb
            · have hx2 : x ∈ List.map (fun b => b.Header.Hash) (b :: bs) := by
                rw [List.map_cons]
                exact List.mem_cons_of_mem _ hx
              exact hfresh x hx2 hxa
            · have hxe : x = b.Header.Hash := by simpa using hxb
              exact hnd.1 (hxe ▸ hx)

theorem replaceChainLinks_ok_iff : ∀ (rest : List Block) (i : Nat) (prev : Block),
    replaceChainLinks i prev rest = .ok () ↔ chainLinkSpec prev rest
  | [], _, _ => by simp [replaceChainLinks, chainLinkSpec]
  | b :: rest, i, prev => by
    rw [replaceChainLinks, chainLinkSpec]
    by_cases h1 : b.Header.PrevHash = prev.Header.Hash
    · rw [if_neg (by simpa using h1)]
      by_cases h2 : b.Header.Index = prev.Header.Index + 1
      · rw [if_neg (by simpa using h2)]
        simp [h1, h2, replaceChainLinks_ok_iff rest (i + 1) b]
      · simp [if_pos (by simpa using h2), h1, h2]
    · simp [if_pos (by simpa using h1), h1]

/-- C7: `ReplaceChain` succeeds exactly when the candidate is strictly
longer than the current chain, every block passes `ValidateBlock`, the
hashes are pairwise distinct, the first block is a genesis block and the
prev_hash/index linkage is consistent; on failure the stored chain —
block list and hash set — is exactly what it was, and on success it is
exactly the given blocks with their hash set. -/
theorem C7_replace_chain_contract (c : Chain) (bs : List Block) :
    ((Chain.ReplaceChain c bs).1 = .ok () ↔ replaceChainSpec c bs) ∧
      ((Chain.ReplaceChain c bs).1 = .ok () →
        (Chain.ReplaceChain c bs).2 = ⟨bs, bs.map (fun b => b.Header.Hash)⟩) ∧
      ((Chain.ReplaceChain c bs).1 ≠ .ok () → (Chain.ReplaceChain c bs).2 = c) := by
  rw [Chain.ReplaceChain]
  by_cases h0 : bs.length = 0
  · rw [if_pos h0]
    refine ⟨⟨fun h => absurd h (by simp), ?_⟩, by simp, fun _ => rfl⟩
    rintro ⟨hlen, -⟩
    omega
  · rw [if_neg h0]
    by_cases h1 : bs.length ≤ c.blocks.length
    · rw [if_pos h1]
      refine ⟨⟨fun h => absurd h (by simp), ?_⟩, by simp, fun _ => rfl⟩
      rintro ⟨hlen, -⟩
      omega
    · rw [if_neg h1]
      cases hsc : replaceChainScan bs [] with
      | error e =>
        dsimp only
        refine ⟨⟨fun h => absurd h (by simp), ?_⟩, by simp, fun _ => rfl⟩
        rintro ⟨-, hall, hnd, -⟩
        have hex : ∃ hs, replaceChainScan bs [] = .ok hs := by
          rw [replaceChainScan_ok_iff]
          exact ⟨hall, hnd, by simp⟩
        rcases hex with ⟨hs, hh⟩
        rw [hsc] at hh
        exact absurd hh (by simp)
      | ok hs =>
        dsimp only
        cases hb : bs with
        | nil => rw [hb] at h0; simp at h0
        | cons g rest =>
          dsimp only
          rw [hb] at hsc
          by_cases hg : g.IsGenesisBlock
          · rw [if_pos hg]
            cases hlk : replaceChainLinks 1 g rest with
            | error e =>
              dsimp only
              refine ⟨⟨fun h => absurd h (by simp), ?_⟩, by simp, fun _ => rfl⟩
              rintro ⟨-, -, -, hmatch⟩
              have hm2 : g.IsGenesisBlock = true ∧ chainLinkSpec g rest := hmatch
              have := (replaceChainLinks_ok_iff rest 1 g).mpr hm2.2
              rw [hlk] at this
              exact absurd this (by simp)
            | ok u =>
              cases u
              dsimp only
              have hval := replaceChainScan_ok_val (g :: rest) [] hs hsc
              have hiff := (replaceChainScan_ok_iff (g :: rest) []).mp ⟨hs, hsc⟩
              refine ⟨⟨fun _ => ?_, fun _ => rfl⟩, fun _ => ?_, fun hne => absurd rfl hne⟩
              · exact ⟨by rw [← hb]; omega, hiff.1, hiff.2.1,
                  ⟨hg, (replaceChainLinks_ok_iff rest 1 g).mp hlk⟩⟩
              · rw [hval]
                simp
          · rw [if_neg hg]
            refine ⟨⟨fun h => absurd h (by simp), ?_⟩, by simp, fun _ => rfl⟩
            rintro ⟨-, -, -, hmatch⟩
            have hm2 : g.IsGenesisBlock = true ∧ chainLinkSpec g rest := hmatch
            exact absurd hm2.1 hg

/-! ## Claim C6 — wire round-trip preserves the hash -/

/-- Wire round-trip: out through `convertBlockToServer`, back through
`convertServerToBlock`. -/
def wireRoundTrip (b : Block) : Block := convertServerToBlock (convertBlockToServer b)

/-- The payload shapes `NewBlock` is given in this codebase (its only
callers are `CreateBlockWithTransaction` and `CreateBlockWithAddNode`):
the type tag matches the data variant. -/
def payloadWF (p : BlockPayload) : Prop :=
  (p.Type' = "transaction" ∧ ∃ t, p.Data = .tx t) ∨
    (p.Type' = "add_node" ∧ ∃ a, p.Data = .addNode a)

/-- C6: for a block produced by `NewBlock`, converting to the wire form
(created_at as unix seconds) and back yields a block whose recomputed
hash equals the stored hash: index, signatures and payload bytes are
preserved exactly, the instant is preserved up to the RFC-3339 rendering
the hash pre-image uses (the dropped nanoseconds never enter it), so the
receiver's `ValidateBlock` revalidation succeeds. -/
theorem C6_wire_roundtrip_hash (index : Int) (prevHash : String) (p : BlockPayload)
    (now : GoTime) (hp : payloadWF p) :
    CalcBlockHash (wireRoundTrip (NewBlock index prevHash p now)) =
        (wireRoundTrip (NewBlock index prevHash p now)).Header.Hash ∧
      (wireRoundTrip (NewBlock index prevHash p now)).Header.Hash =
        (NewBlock index prevHash p now).Header.Hash ∧
      (wireRoundTrip (NewBlock index prevHash p now)).Header.Index =
        (NewBlock index prevHash p now).Header.Index ∧
      (wireRoundTrip (NewBlock index prevHash p now)).Payload =
        (NewBlock index prevHash p now).Payload ∧
      rfc3339OfTime (wireRoundTrip (NewBlock index prevHash p now)).Header.CreatedAt =
        rfc3339OfTime (NewBlock index prevHash p now).Header.CreatedAt ∧
      ValidateBlock (wireRoundTrip (NewBlock index prevHash p now)) = .ok () := by
  obtain ⟨pt, pd, pfs, pts⟩ := p
  rcases hp with ⟨htype, t, hdata⟩ | ⟨htype, a, hdata⟩
  · simp only at htype hdata
    subst htype hdata
    exact ⟨rfl, rfl, rfl, rfl, rfl, (validateBlock_ok_iff _).mpr ⟨rfl, Or.inl rfl⟩⟩
  · simp only at htype hdata
    subst htype hdata
    exact ⟨rfl, rfl, rfl, rfl, rfl, (validateBlock_ok_iff _).mpr ⟨rfl, Or.inr rfl⟩⟩

/-- C6 witness: a concrete transaction block with a nonzero nanosecond
part survives the round-trip with its hash intact. -/
theorem C6_wire_roundtrip_hash_witness :
    CalcBlockHash (wireRoundTrip (NewBlock 1 "ph" ⟨"transaction", .tx ⟨"a", "b", 5, "t"⟩, "fs", "ts"⟩ ⟨1700000000, 123⟩)) =
        (wireRoundTrip (NewBlock 1 "ph" ⟨"transaction", .tx ⟨"a", "b", 5, "t"⟩, "fs", "ts"⟩ ⟨1700000000, 123⟩)).Header.Hash ∧
      (wireRoundTrip (NewBlock 1 "ph" ⟨"transaction", .tx ⟨"a", "b", 5, "t"⟩, "fs", "ts"⟩ ⟨1700000000, 123⟩)).Header.Hash =
        (NewBlock 1 "ph" ⟨"transaction", .tx ⟨"a", "b", 5, "t"⟩, "fs", "ts"⟩ ⟨1700000000, 123⟩).Header.Hash ∧
      (wireRoundTrip (NewBlock 1 "ph" ⟨"transaction", .tx ⟨"a", "b", 5, "t"⟩, "fs", "ts"⟩ ⟨1700000000, 123⟩)).Header.Index =
        (NewBlock 1 "ph" ⟨"transaction", .tx ⟨"a", "b", 5, "t"⟩, "fs", "ts"⟩ ⟨1700000000, 123⟩).Header.Index ∧
      (wireRoundTrip (NewBlock 1 "ph" ⟨"transaction", .tx ⟨"a", "b", 5, "t"⟩, "fs", "ts"⟩ ⟨1700000000, 123⟩)).Payload =
        (NewBlock 1 "ph" ⟨"transaction", .tx ⟨"a", "b", 5, "t"⟩, "fs", "ts"⟩ ⟨1700000000, 123⟩).Payload ∧
      rfc3339OfTime (wireRoundTrip (NewBlock 1 "ph" ⟨"transaction", .tx ⟨"a", "b", 5, "t"⟩, "fs", "ts"⟩ ⟨1700000000, 123⟩)).Header.CreatedAt =
        rfc3339OfTime (NewBlock 1 "ph" ⟨"transaction", .tx ⟨"a", "b", 5, "t"⟩, "fs", "ts"⟩ ⟨1700000000, 123⟩).Header.CreatedAt ∧
      ValidateBlock (wireRoundTrip (NewBlock 1 "ph" ⟨"transaction", .tx ⟨"a", "b", 5, "t"⟩, "fs", "ts"⟩ ⟨1700000000, 123⟩)) = .ok () :=
  C6_wire_roundtrip_hash 1 "ph" ⟨"transaction", .tx ⟨"a", "b", 5, "t"⟩, "fs", "ts"⟩ ⟨1700000000, 123⟩
    (Or.inl ⟨rfl, ⟨"a", "b", 5, "t"⟩, rfl⟩)

/-! ## Claims C2 and C8 — the receive path -/

/-- What a successful `AddBlock` tells: the new chain is the old one with
the block appended, the block validated, and its hash was new. -/
theorem addBlock_ok_elim (c : Chain) (b : Block) (chain2 : Chain)
    (h : c.AddBlock b = (.ok (), chain2)) :
    chain2 = ⟨c.blocks ++ [b], c.hashSet ++ [b.Header.Hash]⟩ ∧
      ValidateBlock b = .ok () ∧ b.Header.Hash ∉ c.hashSet := by
  rw [Chain.AddBlock] at h
  cases hv : ValidateBlock b with
  | error e => rw [hv] at h; exact absurd h (by simp)
  | ok u =>
    cases u
    rw [hv] at h
    dsimp only at h
    cases hl : c.blocks.getLast? with
    | none =>
      rw [hl] at h
      dsimp only at h
      by_cases hm : b.Header.Hash ∈ c.hashSet
      · rw [if_pos hm] at h; exact absurd h (by simp)
      · rw [if_neg hm] at h
        refine ⟨?_, rfl, hm⟩
        have := congrArg Prod.snd h
        simpa using this.symm
    | some lastBlock =>
      rw [hl] at h
      dsimp only at h
      by_cases h1 : b.Header.PrevHash = lastBlock.Header.Hash
      · rw [if_neg (by simpa using h1)] at h
        by_cases h2 : b.Header.Index = lastBlock.Header.Index + 1
        · rw [if_neg (by simpa using h2)] at h
          by_cases hm : b.Header.Hash ∈ c.hashSet
          · rw [if_pos hm] at h; exact absurd h (by simp)
          · rw [if_neg hm] at h
            refine ⟨?_, rfl, hm⟩
            have := congrArg Prod.snd h
            simpa using this.symm
        · rw [if_pos (by simpa using h2)] at h; exact absurd h (by simp)
      · rw [if_pos (by simpa using h1)] at h; exact absurd h (by simp)

/-- Signature verification reads the node state only through its peer
directory. -/
theorem verifyBlockSignatures_peers {s1 s2 : NodeState} (hp : s1.peers = s2.peers) (b : Block) :
    verifyBlockSignatures s1 b = verifyBlockSignatures s2 b := by
  rw [verifyBlockSignatures, verifyBlockSignatures]
  dsimp only [NodeStore.LoadAll]
  rw [hp]

/-- C2: the receive path appends (and persists and re-broadcasts) only a
block that passes hash revalidation and signature verification against
the peer directory and whose prev_hash equals the local last hash; on any
error the whole node state is unchanged and nothing is re-broadcast; the
pending pool, pending snapshot and peer directory are never touched;
signature verification is skipped for add_node blocks, and a transaction
block naming an unknown `from` peer fails it. -/
theorem C2_receive_block_guarded (s : NodeState) (b : ServerBlock) :
    ((ReceiveBlock s b).2.1.pendingPool = s.pendingPool ∧
        (ReceiveBlock s b).2.1.pendingFile = s.pendingFile ∧
        (ReceiveBlock s b).2.1.peers = s.peers) ∧
      (∀ e, (ReceiveBlock s b).1 = .error e →
        (ReceiveBlock s b).2.1 = s ∧ (ReceiveBlock s b).2.2 = false) ∧
      ((ReceiveBlock s b).2.1.chain ≠ s.chain →
        ValidateBlock (convertServerToBlock b) = .ok () ∧
          verifyBlockSignatures s (convertServerToBlock b) = .ok () ∧
          (convertServerToBlock b).Header.PrevHash = s.chain.GetLastHash ∧
          (ReceiveBlock s b).1 = .ok () ∧
          (ReceiveBlock s b).2.1.chain.blocks =
            s.chain.blocks ++ [convertServerToBlock b] ∧
          (ReceiveBlock s b).2.1.blockLog = s.blockLog ++ [convertServerToBlock b] ∧
          (ReceiveBlock s b).2.2 = true) ∧
      ((convertServerToBlock b).Payload.Type' = "add_node" →
        verifyBlockSignatures s (convertServerToBlock b) = .ok ()) ∧
      (∀ t, (convertServerToBlock b).Payload.Type' = "transaction" →
        (convertServerToBlock b).Payload.Data = .tx t →
        (convertServerToBlock b).Payload.FromSignature ≠ "" →
        lookupNode s.peers t.From = none →
        verifyBlockSignatures s (convertServerToBlock b) =
          .error ("unknown from node: " ++ t.From)) := by
  have hv4 : (convertServerToBlock b).Payload.Type' = "add_node" →
      verifyBlockSignatures s (convertServerToBlock b) = .ok () := by
    intro ht
    rw [verifyBlockSignatures, if_pos (by simp [ht])]
  have hv5 : ∀ t, (convertServerToBlock b).Payload.Type' = "transaction" →
      (convertServerToBlock b).Payload.Data = .tx t →
      (convertServerToBlock b).Payload.FromSignature ≠ "" →
      lookupNode s.peers t.From = none →
      verifyBlockSignatures s (convertServerToBlock b) =
        .error ("unknown from node: " ++ t.From) := by
    intro t ht hd hfs hlu
    have hg : (convertServerToBlock b).GetTransactionData = .ok t := by
      rw [Block.GetTransactionData, if_neg (by simp [ht]), hd]
    rw [verifyBlockSignatures, if_neg (by simp [ht]), hg]
    dsimp only [NodeStore.LoadAll]
    rw [if_neg (by simpa using hfs), hlu]
  rw [ReceiveBlock]
  dsimp only
  cases hv : ValidateBlock (convertServerToBlock b) with
  | error e =>
    dsimp only
    exact ⟨⟨rfl, rfl, rfl⟩, fun _ _ => ⟨rfl, rfl⟩, fun hne => absurd rfl hne, hv4, hv5⟩
  | ok u =>
    cases u
    dsimp only
    cases hvs : verifyBlockSignatures s (convertServerToBlock b) with
    | error e =>
      dsimp only
      refine ⟨⟨rfl, rfl, rfl⟩, fun _ _ => ⟨rfl, rfl⟩, fun hne => absurd rfl hne, ?_, ?_⟩
      · intro ht
        rw [← hvs]
        exact hv4 ht
      · intro t ht hd hfs hlu
        rw [← hvs]
        exact hv5 t ht hd hfs hlu
    | ok u =>
      cases u
      dsimp only
      have hv4x : (convertServerToBlock b).Payload.Type' = "add_node" →
          (Except.ok PUnit.unit : Except String Unit) = .ok () := fun _ => rfl
      have hv5x : ∀ t, (convertServerToBlock b).Payload.Type' = "transaction" →
          (convertServerToBlock b).Payload.Data = .tx t →
          (convertServerToBlock b).Payload.FromSignature ≠ "" →
          lookupNode s.peers t.From = none →
          (Except.ok PUnit.unit : Except String Unit) =
            .error ("unknown from node: " ++ t.From) := by
        intro t ht hd hfs hlu
        have h5 := hv5 t ht hd hfs hlu
        rw [hvs] at h5
        exact h5
      by_cases hprev : (convertServerToBlock b).Header.PrevHash = s.chain.GetLastHash
      · rw [if_pos hprev]
        cases hadd : s.chain.AddBlock (convertServerToBlock b) with
        | mk r chain2 =>
          cases r with
          | error e =>
            dsimp only
            exact ⟨⟨rfl, rfl, rfl⟩, fun _ _ => ⟨rfl, rfl⟩, fun hne => absurd rfl hne, hv4x, hv5x⟩
          | ok u =>
            cases u
            dsimp only
            rcases addBlock_ok_elim s.chain (convertServerToBlock b) chain2 hadd
              with ⟨hc2, -, -⟩
            have hblocks : chain2.blocks = s.chain.blocks ++ [convertServerToBlock b] := by
              rw [hc2]
            exact ⟨⟨rfl, rfl, rfl⟩, fun e h => absurd h (by simp),
              fun hne => ⟨rfl, rfl, hprev, rfl, hblocks, rfl, rfl⟩, hv4x, hv5x⟩
      · rw [if_neg hprev]
        by_cases hidx : s.chain.GetLastIndex < (convertServerToBlock b).Header.Index
        · rw [if_pos hidx]
          exact ⟨⟨rfl, rfl, rfl⟩, fun _ _ => ⟨rfl, rfl⟩, fun hne => absurd rfl hne, hv4x, hv5x⟩
        · rw [if_neg hidx]
          by_cases hhas : s.chain.HasBlock (convertServerToBlock b).Header.Hash
          · rw [if_pos hhas]
            exact ⟨⟨rfl, rfl, rfl⟩, fun e h => absurd h (by simp),
              fun hne => absurd rfl hne, hv4x, hv5x⟩
          · rw [if_neg hhas]
            exact ⟨⟨rfl, rfl, rfl⟩, fun _ _ => ⟨rfl, rfl⟩, fun hne => absurd rfl hne, hv4x, hv5x⟩

/-- C8: delivering a block a second time after a receive appended it is
accepted silently and changes nothing: the appended block is the new
tail, so its prev_hash no longer matches the last hash, its index is not
ahead, and the hash-set lookup makes `ReceiveBlock` return ok without
touching the chain and without re-broadcasting. The hypothesis asks that
every stored block's hash be in the chain's hash set, which every
reachable chain satisfies. -/
theorem C8_receive_idempotent (s : NodeState) (b : ServerBlock) (s1 : NodeState)
    (hwf : ∀ blk ∈ s.chain.blocks, blk.Header.Hash ∈ s.chain.hashSet)
    (h1 : ReceiveBlock s b = (.ok (), s1, true)) :
    ReceiveBlock s1 b = (.ok (), s1, false) := by
  rw [ReceiveBlock] at h1
  dsimp only at h1
  cases hv : ValidateBlock (convertServerToBlock b) with
  | error e => rw [hv] at h1; exact absurd h1 (by simp)
  | ok u =>
    cases u
    rw [hv] at h1
    dsimp only at h1
    cases hvs : verifyBlockSignatures s (convertServerToBlock b) with
    | error e => rw [hvs] at h1; exact absurd h1 (by simp)
    | ok u =>
      cases u
      rw [hvs] at h1
      dsimp only at h1
      by_cases hprev : (convertServerToBlock b).Header.PrevHash = s.chain.GetLastHash
      · rw [if_pos hprev] at h1
        cases hadd : s.chain.AddBlock (convertServerToBlock b) with
        | mk r chain2 =>
          rw [hadd] at h1
          cases r with
          | error e => dsimp only at h1; exact absurd h1 (by simp)
          | ok u =>
            cases u
            dsimp only at h1
            rcases addBlock_ok_elim s.chain (convertServerToBlock b) chain2 hadd with ⟨hc2, hvb, hnm⟩
            have hs1 : ({ s with chain := chain2, blockLog := s.blockLog ++ [convertServerToBlock b] } : NodeState) = s1 := by
              have hp := congrArg (fun p => p.2.1) h1
              simpa using hp
            subst hs1
            rw [ReceiveBlock]
            dsimp only
            rw [hv]
            dsimp only
            have hvs1 : verifyBlockSignatures { s with chain := chain2, blockLog := s.blockLog ++ [convertServerToBlock b] } (convertServerToBlock b) = .ok () := by
              exact (verifyBlockSignatures_peers rfl (convertServerToBlock b)).trans hvs
            rw [hvs1]
            dsimp only
            have hlast : Chain.GetLastHash chain2 = (convertServerToBlock b).Header.Hash := by
              rw [hc2, Chain.GetLastHash.eq_def]
              dsimp only
              rw [List.getLast?_concat]
            have hlasti : Chain.GetLastIndex chain2 = (convertServerToBlock b).Header.Index := by
              rw [hc2, Chain.GetLastIndex.eq_def]
              dsimp only
              rw [List.getLast?_concat]
            have hpne : ¬ (convertServerToBlock b).Header.PrevHash = Chain.GetLastHash chain2 := by
              rw [hlast, hprev]
              cases hl : s.chain.blocks.getLast? with
              | some lb =>
                have hlh : Chain.GetLastHash s.chain = lb.Header.Hash := by
                  rw [Chain.GetLastHash.eq_def, hl]
                rw [hlh]
                intro heq
                exact hnm (heq ▸ hwf lb (mem_of_getLast?_eq hl))
              | none =>
                have hlh : Chain.GetLastHash s.chain = "" := by
                  rw [Chain.GetLastHash.eq_def, hl]
                rw [hlh]
                intro heq
                have hle := calcBlockHash_length (convertServerToBlock b)
                rcases (validateBlock_ok_iff _).mp hv with ⟨hh, -⟩
                rw [hh] at hle
                rw [← heq] at hle
                simp [String.length] at hle
            rw [if_neg hpne, hlasti, if_neg (lt_irrefl _)]
            have hhas : Chain.HasBlock chain2 (convertServerToBlock b).Header.Hash = true := by
              rw [hc2, Chain.HasBlock]
              dsimp only
              simp
            rw [if_pos hhas]
      · exfalso
        rw [if_neg hprev] at h1
        by_cases hidx : s.chain.GetLastIndex < (convertServerToBlock b).Header.Index
        · rw [if_pos hidx] at h1; exact absurd h1 (by simp)
        · rw [if_neg hidx] at h1
          by_cases hhas : s.chain.HasBlock (convertServerToBlock b).Header.Hash
          · rw [if_pos hhas] at h1
            have h2 := congrArg (fun p => p.2.2) h1
            simp at h2
          · rw [if_neg hhas] at h1; exact absurd h1 (by simp)

/-- The second receive's input state for the C8 witness: the result of
appending the concrete add_node block to a fresh chain. -/
def c8Block : Block :=
  CreateBlockWithAddNode 1 NewGenesisBlockFixed.Header.Hash ⟨"pk", "dave", "Dave", "addrD"⟩ ⟨1700000000, 0⟩

def c8Server : ServerBlock := convertBlockToServer c8Block

def c8State0 : NodeState := ⟨"alice", "kA", NewChain, [], [NewGenesisBlockFixed], [], []⟩

def c8State1 : NodeState :=
  { c8State0 with
    chain := ⟨c8State0.chain.blocks ++ [convertServerToBlock c8Server],
      c8State0.chain.hashSet ++ [(convertServerToBlock c8Server).Header.Hash]⟩,
    blockLog := c8State0.blockLog ++ [convertServerToBlock c8Server] }

/-- C8 witness: a concrete second delivery returns ok, leaves the state
untouched and does not re-broadcast. -/
theorem C8_receive_idempotent_witness :
    ReceiveBlock c8State1 c8Server = (.ok (), c8State1, false) :=
  C8_receive_idempotent c8State0 c8Server c8State1 (by decide) (by decide)

/-! ## C1: the signing pre-image -/

/-- Lookup after Add finds the just-added entry under its own id. -/
theorem pendingPool_get_add (p : PendingPool) (pt : PendingTransaction) :
    PendingPool.Get (PendingPool.Add p pt) pt.ID = some pt := by
  rw [PendingPool.Get, PendingPool.Add, List.find?_cons_of_pos _ (by simp)]
  rfl

/-- The transaction JSON (starting \x7b"from") is never the \x7b"type","data"
wrapper produced by MakeSigningPayload: their third bytes differ. -/
theorem jsonTransactionData_ne_signing (d : TransactionData) (p : BlockPayload) :
    jsonTransactionData d ≠ MakeSigningPayload p := by
  intro h
  have hA : (jsonTransactionData d).data.get? 2 = some 'f' := rfl
  rw [h] at hA
  have hB : (MakeSigningPayload p).data.get? 2 = some 't' := rfl
  rw [hB] at hA
  exact absurd (Option.some.inj hA) (by decide)

/-- verifyBlockSignatures accepts a transaction block whose two signatures
are over the marshalled transaction data, under keys whose registered hex
public keys the peer directory maps from/to to. -/
theorem verifyBlockSignatures_tx_ok (s : NodeState) (b : Block) (d : TransactionData)
    (infoA infoB : NodeInfo) (kA kB : String)
    (htype : b.Payload.Type' = "transaction")
    (hgt : b.GetTransactionData = .ok d)
    (hfs : b.Payload.FromSignature = Sign kA (jsonTransactionData d))
    (hts : b.Payload.ToSignature = Sign kB (jsonTransactionData d))
    (hFrom : lookupNode s.peers d.From = some infoA)
    (hFromPk : infoA.PublicKey = hexOfPubKey (pubOfPriv kA))
    (hTo : lookupNode s.peers d.To = some infoB)
    (hToPk : infoB.PublicKey = hexOfPubKey (pubOfPriv kB)) :
    verifyBlockSignatures s b = .ok () := by
  rw [verifyBlockSignatures, if_neg (by simp [htype]), hgt]
  dsimp only [NodeStore.LoadAll]
  rw [hfs, hts, if_neg (sign_ne_empty kA (jsonTransactionData d)), hFrom]
  dsimp only
  rw [hFromPk, hexToPublicKey_hexOfPubKey]
  dsimp only
  rw [if_neg (by simp [verify_sign]), if_neg (sign_ne_empty kB (jsonTransactionData d)), hTo]
  dsimp only
  rw [hToPk, hexToPublicKey_hexOfPubKey]
  dsimp only
  rw [if_neg (by simp [verify_sign])]

/-- C1: when propose is handed an empty signature it signs exactly
jsonTransactionData of the payload (the pending entry carries that
signature), approve signs the same bytes with its own key as
to_signature, those bytes are the bare transaction JSON and not the
type/data wrapper, and a verifier whose peer directory registers the
proposer's public key under `from` and the approver's under `to` accepts
the committed block's two signatures. -/
theorem C1_signing_preimage_and_verify (sA sB sV : NodeState) (d : TransactionData)
    (nowA nowB nowC : GoTime) (blk : ServerBlock) (sB3 : NodeState) (infoA infoB : NodeInfo)
    (hApprove : ApproveTransaction
        (ProposeTransaction sB d (Sign sA.PrivKey (jsonTransactionData d)) nowB).2.1
        (GenerateID ⟨"transaction", .tx d, Sign sA.PrivKey (jsonTransactionData d), ""⟩ nowB) nowC
        = (.ok blk, sB3))
    (hFrom : lookupNode sV.peers d.From = some infoA)
    (hFromPk : infoA.PublicKey = hexOfPubKey (pubOfPriv sA.PrivKey))
    (hTo : lookupNode sV.peers d.To = some infoB)
    (hToPk : infoB.PublicKey = hexOfPubKey (pubOfPriv sB.PrivKey)) :
    (ProposeTransaction sA d "" nowA).2.1.pendingPool.head? =
        some (GenerateID ⟨"transaction", .tx d, Sign sA.PrivKey (jsonTransactionData d), ""⟩ nowA,
          ⟨GenerateID ⟨"transaction", .tx d, Sign sA.PrivKey (jsonTransactionData d), ""⟩ nowA, nowA,
            ⟨"transaction", .tx d, Sign sA.PrivKey (jsonTransactionData d), ""⟩⟩) ∧
      blk.Payload.FromSignature = Sign sA.PrivKey (jsonTransactionData d) ∧
      blk.Payload.ToSignature = Sign sB.PrivKey (jsonTransactionData d) ∧
      jsonTransactionData d ≠
        MakeSigningPayload ⟨"transaction", .tx d, Sign sA.PrivKey (jsonTransactionData d), ""⟩ ∧
      verifyBlockSignatures sV (convertServerToBlock blk) = .ok () := by
  rw [ApproveTransaction] at hApprove
  dsimp only [ProposeTransaction, NewPendingTransaction] at hApprove
  rw [if_neg (sign_ne_empty sA.PrivKey (jsonTransactionData d))] at hApprove
  have heta : ({ From := d.From, To := d.To, Amount := d.Amount, Title := d.Title } : TransactionData) = d := rfl
  rw [heta] at hApprove
  rw [pendingPool_get_add] at hApprove
  dsimp only at hApprove
  have hget : PendingTransaction.GetTransactionData
      ⟨GenerateID ⟨"transaction", .tx d, Sign sA.PrivKey (jsonTransactionData d), ""⟩ nowB, nowB,
        ⟨"transaction", .tx d, Sign sA.PrivKey (jsonTransactionData d), ""⟩⟩ = .ok d := rfl
  rw [hget] at hApprove
  dsimp only at hApprove
  cases hlb : sB.chain.LastBlock with
  | none => rw [hlb] at hApprove; exact absurd hApprove (by simp)
  | some lastBlock =>
    rw [hlb] at hApprove
    dsimp only at hApprove
    cases hadd : sB.chain.AddBlock (CreateBlockWithTransaction (lastBlock.Header.Index + 1)
        lastBlock.Header.Hash d (Sign sA.PrivKey (jsonTransactionData d))
        (Sign sB.PrivKey (jsonTransactionData d)) nowC) with
    | mk r chain2 =>
      rw [hadd] at hApprove
      cases r with
      | error e => dsimp only at hApprove; exact absurd hApprove (by simp)
      | ok u =>
        cases u
        dsimp only at hApprove
        have hblk : convertBlockToServer (CreateBlockWithTransaction (lastBlock.Header.Index + 1)
            lastBlock.Header.Hash d (Sign sA.PrivKey (jsonTransactionData d))
            (Sign sB.PrivKey (jsonTransactionData d)) nowC) = blk := by
          have hp := congrArg (fun p => p.1) hApprove
          simpa using hp
        subst hblk
        exact ⟨rfl, rfl, rfl, jsonTransactionData_ne_signing d _,
          verifyBlockSignatures_tx_ok sV _ d infoA infoB sA.PrivKey sB.PrivKey rfl rfl rfl rfl
            hFrom hFromPk hTo hToPk⟩

def c1Data : TransactionData := ⟨"a", "b", 5, "t"⟩

def c1InfoA : NodeInfo := ⟨"a", "A", "addr1", hexOfPubKey (pubOfPriv "kA")⟩

def c1InfoB : NodeInfo := ⟨"b", "B", "addr2", hexOfPubKey (pubOfPriv "kB")⟩

def c1A : NodeState := ⟨"a", "kA", NewChain, [], [], [], []⟩

def c1B : NodeState := ⟨"b", "kB", NewChain, [], [], [], []⟩

def c1V : NodeState := ⟨"v", "kV", NewChain, [], [], [], [("a", c1InfoA), ("b", c1InfoB)]⟩

def c1T1 : GoTime := ⟨1700000000, 0⟩

def c1T2 : GoTime := ⟨1700000100, 0⟩

def c1T3 : GoTime := ⟨1700000200, 0⟩

def c1Blk : ServerBlock :=
  convertBlockToServer (CreateBlockWithTransaction 1 NewGenesisBlockFixed.Header.Hash c1Data
    (Sign "kA" (jsonTransactionData c1Data)) (Sign "kB" (jsonTransactionData c1Data)) c1T3)

def c1Approved : Except String ServerBlock × NodeState :=
  ApproveTransaction
    (ProposeTransaction c1B c1Data (Sign "kA" (jsonTransactionData c1Data)) c1T2).2.1
    (GenerateID ⟨"transaction", .tx c1Data, Sign "kA" (jsonTransactionData c1Data), ""⟩ c1T2) c1T3

/-- Witness: the full propose/approve/verify pipeline on concrete nodes. -/
theorem C1_signing_preimage_and_verify_witness :
    (ProposeTransaction c1A c1Data "" c1T1).2.1.pendingPool.head? =
        some (GenerateID ⟨"transaction", .tx c1Data, Sign "kA" (jsonTransactionData c1Data), ""⟩ c1T1,
          ⟨GenerateID ⟨"transaction", .tx c1Data, Sign "kA" (jsonTransactionData c1Data), ""⟩ c1T1, c1T1,
            ⟨"transaction", .tx c1Data, Sign "kA" (jsonTransactionData c1Data), ""⟩⟩) ∧
      c1Blk.Payload.FromSignature = Sign "kA" (jsonTransactionData c1Data) ∧
      c1Blk.Payload.ToSignature = Sign "kB" (jsonTransactionData c1Data) ∧
      jsonTransactionData c1Data ≠
        MakeSigningPayload ⟨"transaction", .tx c1Data, Sign "kA" (jsonTransactionData c1Data), ""⟩ ∧
      verifyBlockSignatures c1V (convertServerToBlock c1Blk) = .ok () :=
  C1_signing_preimage_and_verify c1A c1B c1V c1Data c1T1 c1T2 c1T3 c1Blk
    c1Approved.2 c1InfoA c1InfoB (by decide) rfl rfl rfl rfl

end Signet
